import Mathlib

/-!
A verification development for the ingestor repository: a Go service that
moves tabular data between ClickHouse and delimited flat files.  The
definitions below are shallow embeddings of the Go functions in
`internal/service/flatfile.go`, `internal/service/clickhouse.go`
(`BuildJoinQuery`, `InsertData`), `internal/service/ingest.go`
(`IngestClickHouseToFlatFile`, `IngestFlatFileToClickHouse`) and the
SSE handler `StartIngestion`.  Machine integers are modelled as `Int`/`Nat`
(the repository never relies on overflow), Go maps iterated in
first-insertion key order, and fallible functions return `Except`/`Option`.
-/

namespace Ingestor

/-- `model.Column`: a named, string-typed column. -/
structure Column where
  name : String
  type : String
deriving DecidableEq, Repr

/-- `model.ProgressUpdate`: one progress event of a transfer. -/
structure ProgressUpdate where
  status : String
  message : String
  count : Nat
  completed : Bool
deriving DecidableEq, Repr

/-- `model.JoinTableInfo`: one table entry of a join specification. -/
structure JoinTableInfo where
  name : String
  joinType : String
  joinCondition : String
  selectedColumns : List String
deriving DecidableEq, Repr

/-- `model.JoinParams`: a join specification. -/
structure JoinParams where
  tables : List JoinTableInfo
  whereClause : String
deriving DecidableEq, Repr

/-! ## Go `strconv` primitives

`strconv.ParseInt(s, 10, 64)` and `strconv.ParseFloat(s, 64)` as used by
`inferType` and `convertValue`.  `ParseInt` is modelled exactly, including
the 64-bit range check.  `ParseFloat` is modelled as its syntax check
(decimal and hexadecimal literals, underscore separators, signed
inf/infinity and unsigned nan specials); the `ErrRange` failure for
literals whose value overflows a float64 is not modelled, so inputs with
magnitude beyond the float64 range are outside the modelled scope. -/

/-- Numeric value of a decimal digit list (most significant first). -/
def digitsVal (l : List Char) : Nat :=
  l.foldl (fun n c => n * 10 + (c.toNat - 48)) 0

/-- Strip one leading `+`/`-` sign, returning `(isNegative, rest)`. -/
def stripSign : List Char → Bool × List Char
  | '+' :: rest => (false, rest)
  | '-' :: rest => (true, rest)
  | cs => (false, cs)

/-- Go `strconv.ParseInt(s, 10, 64)`: optional sign, one or more ASCII
digits (no underscores in base 10), result within the `int64` range. -/
def goParseInt64 (s : String) : Option Int :=
  let (neg, ds) := stripSign s.toList
  if ds = [] then none
  else if ds.all Char.isDigit then
    let n : Nat := digitsVal ds
    let v : Int := if neg then -(n : Int) else (n : Int)
    if -(2 ^ 63) ≤ v ∧ v ≤ 2 ^ 63 - 1 then some v else none
  else none

/-- Go `strconv`'s `underscoreOK`: underscores may appear only between
digits (or between a `0x` base prefix and a digit); scans the whole
literal with a one-character state. -/
def underscoreScan (isDig : Char → Bool) : List Char → Char → Bool
  | [], saw => saw ≠ '_'
  | c :: rest, saw =>
    if isDig c then underscoreScan isDig rest '0'
    else if c = '_' then saw = '0' && underscoreScan isDig rest '_'
    else saw ≠ '_' && underscoreScan isDig rest '!'

/-- Hexadecimal digit test (Go `lower(c)` based scanning). -/
def isHexDig (c : Char) : Bool :=
  c.isDigit || ('a' ≤ c.toLower && c.toLower ≤ 'f')

/-- `underscoreOK` over a full literal: strips the sign, detects a hex
base prefix, then runs the scan. -/
def goUnderscoreOK (cs : List Char) : Bool :=
  let body := (stripSign cs).2
  match body with
  | '0' :: x :: rest =>
    if x.toLower = 'x' then underscoreScan isHexDig rest '0'
    else underscoreScan Char.isDigit body '^'
  | _ => underscoreScan Char.isDigit body '^'

/-- Longest prefix of decimal digits and the remainder. -/
def takeDigits (cs : List Char) : List Char × List Char :=
  (cs.takeWhile Char.isDigit, cs.dropWhile Char.isDigit)

/-- Longest prefix of hexadecimal digits and the remainder. -/
def takeHexDigits (cs : List Char) : List Char × List Char :=
  (cs.takeWhile isHexDig, cs.dropWhile isHexDig)

/-- Decimal exponent suffix: empty, or `e`/`E`, optional sign, digits;
must consume everything. -/
def goExpOk (cs : List Char) : Bool :=
  match cs with
  | [] => true
  | e :: rest =>
    if e = 'e' || e = 'E' then
      let ds := takeDigits (stripSign rest).2
      decide (ds.1 ≠ []) && decide (ds.2 = [])
    else false

/-- Decimal float literal body (sign already stripped, underscores
already removed): digits with an optional fractional part, at least one
digit overall, then an optional exponent. -/
def goDecFloatOk (cs : List Char) : Bool :=
  let (d1, r1) := takeDigits cs
  match r1 with
  | '.' :: r2 =>
    let (d2, r3) := takeDigits r2
    (decide (d1 ≠ []) || decide (d2 ≠ [])) && goExpOk r3
  | r => decide (d1 ≠ []) && goExpOk r

/-- Hexadecimal float literal body (sign stripped, underscores removed):
`0x` prefix, hex digits with optional fraction, mandatory binary
exponent `p`/`P` with optional sign and decimal digits. -/
def goHexFloatOk (cs : List Char) : Bool :=
  match cs with
  | '0' :: x :: rest =>
    if x.toLower = 'x' then
      let (d1, r1) := takeHexDigits rest
      let afterMant :=
        match r1 with
        | '.' :: r2 =>
          let (d2, r3) := takeHexDigits r2
          if d1 = [] && d2 = [] then none else some r3
        | r => if d1 = [] then none else some r
      match afterMant with
      | none => false
      | some r =>
        match r with
        | p :: rest2 =>
          if p = 'p' || p = 'P' then
            let ds := takeDigits (stripSign rest2).2
            decide (ds.1 ≠ []) && decide (ds.2 = [])
          else false
        | [] => false
    else false
  | _ => false

/-- Case-insensitive equality with a lowercase pattern. -/
def lowerEq (cs : List Char) (pat : List Char) : Bool :=
  cs.map Char.toLower = pat

/-- Go `strconv`'s `special`: `inf`/`infinity` with an optional sign,
`nan` without a sign, case-insensitively, consuming the whole string. -/
def goFloatSpecial (cs : List Char) : Bool :=
  let body := (stripSign cs).2
  lowerEq body "inf".toList || lowerEq body "infinity".toList ||
    lowerEq cs "nan".toList

/-- Go `strconv.ParseFloat(s, 64)` syntax check (see module note on the
unmodelled overflow-to-`ErrRange` case). -/
def goParseFloatOk (s : String) : Bool :=
  let cs := s.toList
  goFloatSpecial cs ||
    (goUnderscoreOK cs &&
      (let body := ((stripSign cs).2).filter (· ≠ '_')
       goHexFloatOk body || goDecFloatOk body))

/-! ## Go `time.Parse` on the seven layouts of `inferType`

Only the layouts appearing in `flatfile.go` are modelled.  Numeric fields
are fixed-width as the layouts demand; parsed dates are validated the way
`time.Parse` does (month 1–12, day within the month, hour ≤ 23,
minute/second ≤ 59); a fractional-second suffix after the seconds field
is accepted as `time.Parse` does even though no layout requests it. -/

/-- Parse exactly `n` ASCII digits, returning the value and the rest. -/
def parseNDigitsAux : Nat → Nat → List Char → Option (Nat × List Char)
  | 0, acc, cs => some (acc, cs)
  | n + 1, acc, c :: cs =>
    if c.isDigit then parseNDigitsAux n (acc * 10 + (c.toNat - 48)) cs
    else none
  | _ + 1, _, [] => none

/-- Parse exactly `n` ASCII digits starting from accumulator 0. -/
def parseNDigits (n : Nat) (cs : List Char) : Option (Nat × List Char) :=
  parseNDigitsAux n 0 cs

/-- Gregorian leap year, as `time.Date` computes it. -/
def isLeapYear (y : Nat) : Bool :=
  y % 4 = 0 && (y % 100 ≠ 0 || y % 400 = 0)

/-- Days in a month, as `time.Parse` validates the day field. -/
def daysInMonth (y m : Nat) : Nat :=
  if m = 2 then (if isLeapYear y then 29 else 28)
  else if m = 4 || m = 6 || m = 9 || m = 11 then 30
  else 31

/-- `time.Parse` date-field validation. -/
def checkDate (y m d : Nat) : Bool :=
  1 ≤ m && m ≤ 12 && 1 ≤ d && d ≤ daysInMonth y m

/-- `time.Parse` clock-field validation. -/
def checkClock (h mi s : Nat) : Bool :=
  h ≤ 23 && mi ≤ 59 && s ≤ 59

/-- Parse `2006<sep>01<sep>02` (year, month, day) returning the rest. -/
def parseYMD (sep : Char) (cs : List Char) : Option ((Nat × Nat × Nat) × List Char) :=
  match parseNDigits 4 cs with
  | none => none
  | some (y, r1) =>
    match r1 with
    | c1 :: r2 =>
      if c1 = sep then
        match parseNDigits 2 r2 with
        | none => none
        | some (m, r3) =>
          match r3 with
          | c2 :: r4 =>
            if c2 = sep then
              match parseNDigits 2 r4 with
              | none => none
              | some (d, r5) => some ((y, m, d), r5)
            else none
          | [] => none
      else none
    | [] => none

/-- Parse `01<sep>02<sep>2006` (month, day, year) returning the rest. -/
def parseMDY (sep : Char) (cs : List Char) : Option ((Nat × Nat × Nat) × List Char) :=
  match parseNDigits 2 cs with
  | none => none
  | some (m, r1) =>
    match r1 with
    | c1 :: r2 =>
      if c1 = sep then
        match parseNDigits 2 r2 with
        | none => none
        | some (d, r3) =>
          match r3 with
          | c2 :: r4 =>
            if c2 = sep then
              match parseNDigits 4 r4 with
              | none => none
              | some (y, r5) => some ((y, m, d), r5)
            else none
          | [] => none
      else none
    | [] => none

/-- Optional fractional-second suffix: `.`/`,` followed by digits;
returns the fraction digits and the rest. -/
def parseFracOpt (cs : List Char) : List Char × List Char :=
  match cs with
  | c :: rest =>
    if (c = '.' || c = ',') && (takeDigits rest).1 ≠ [] then
      ((takeDigits rest).1, (takeDigits rest).2)
    else ([], cs)
  | [] => ([], cs)

/-- Parse `15:04:05` with optional fractional seconds, returning clock
values, fraction digits and rest. -/
def parseHMS (cs : List Char) : Option ((Nat × Nat × Nat × List Char) × List Char) :=
  match parseNDigits 2 cs with
  | none => none
  | some (h, r1) =>
    match r1 with
    | ':' :: r2 =>
      match parseNDigits 2 r2 with
      | none => none
      | some (mi, r3) =>
        match r3 with
        | ':' :: r4 =>
          match parseNDigits 2 r4 with
          | none => none
          | some (s, r5) =>
            let fr := parseFracOpt r5
            some ((h, mi, s, fr.1), fr.2)
        | _ => none
    | _ => none

/-- Time-zone suffix of the RFC3339 layout: `Z` (UTC) or `±hh:mm`;
returns the offset in minutes and whether the zone is named UTC. -/
def parseRFC3339Zone (cs : List Char) : Option (Int × Bool) :=
  match cs with
  | ['Z'] => some (0, true)
  | sgn :: rest =>
    if sgn = '+' || sgn = '-' then
      match parseNDigits 2 rest with
      | none => none
      | some (zh, r1) =>
        match r1 with
        | ':' :: r2 =>
          match parseNDigits 2 r2 with
          | some (zm, []) =>
            if zh ≤ 23 && zm ≤ 59 then
              let off : Int := (zh * 60 + zm : Nat)
              some (if sgn = '-' then -off else off, false)
            else none
          | _ => none
        | _ => none
    else none
  | [] => none

/-- The seven date layouts tried by `inferType` and `convertValue`. -/
inductive DateLayout
  | ymdDash      -- "2006-01-02"
  | ymdSlash     -- "2006/01/02"
  | mdySlash     -- "01/02/2006"
  | mdyDash      -- "01-02-2006"
  | ymdDashTime  -- "2006-01-02 15:04:05"
  | ymdSlashTime -- "2006/01/02 15:04:05"
  | rfc3339      -- time.RFC3339
deriving DecidableEq, Repr

/-- The layout list in source order. -/
def dateFormats : List DateLayout :=
  [.ymdDash, .ymdSlash, .mdySlash, .mdyDash, .ymdDashTime, .ymdSlashTime, .rfc3339]

/-- The observable content of a parsed `time.Time`: calendar fields,
nanoseconds from an optional fractional second, and the zone (offset in
minutes plus whether it is the named `UTC` zone).  Monotonic-clock and
location internals of `time.Time` are not modelled. -/
structure GoTime where
  year : Nat
  month : Nat
  day : Nat
  hour : Nat
  minute : Nat
  second : Nat
  nanos : Nat
  offsetMin : Int
  namedUTC : Bool
deriving DecidableEq, Repr

/-- The zero `time.Time{}`: January 1, year 1, 00:00:00 UTC. -/
def goZeroTime : GoTime := ⟨1, 1, 1, 0, 0, 0, 0, 0, true⟩

/-- Nanoseconds denoted by a fractional-second digit list (first nine
digits, right-padded with zeros). -/
def fracToNanos (frac : List Char) : Nat :=
  digitsVal ((frac ++ List.replicate 9 '0').take 9)

/-- `time.Parse(layout, value)` for one of the seven layouts: `some` of
the parsed instant on success, `none` on a parse or validation error. -/
def goTimeParseVal (layout : DateLayout) (value : String) : Option GoTime :=
  let cs := value.toList
  let dateOnly := fun (p : Option ((Nat × Nat × Nat) × List Char)) =>
    match p with
    | some ((y, m, d), []) =>
      if checkDate y m d then some (GoTime.mk y m d 0 0 0 0 0 true) else none
    | _ => none
  let dateTime := fun (p : Option ((Nat × Nat × Nat) × List Char)) =>
    match p with
    | some ((y, m, d), ' ' :: r) =>
      match parseHMS r with
      | some ((h, mi, s, frac), []) =>
        if checkDate y m d && checkClock h mi s then
          some (GoTime.mk y m d h mi s (fracToNanos frac) 0 true)
        else none
      | _ => none
    | _ => none
  match layout with
  | .ymdDash => dateOnly (parseYMD '-' cs)
  | .ymdSlash => dateOnly (parseYMD '/' cs)
  | .mdySlash => dateOnly (parseMDY '/' cs)
  | .mdyDash => dateOnly (parseMDY '-' cs)
  | .ymdDashTime => dateTime (parseYMD '-' cs)
  | .ymdSlashTime => dateTime (parseYMD '/' cs)
  | .rfc3339 =>
    match parseYMD '-' cs with
    | some ((y, m, d), 'T' :: r) =>
      match parseHMS r with
      | some ((h, mi, s, frac), zone) =>
        match parseRFC3339Zone zone with
        | some (off, utc) =>
          if checkDate y m d && checkClock h mi s then
            some (GoTime.mk y m d h mi s (fracToNanos frac) off utc)
          else none
        | none => none
      | _ => none
    | _ => none

/-- Whether `time.Parse(layout, value)` succeeds. -/
def goTimeParseOk (layout : DateLayout) (value : String) : Bool :=
  (goTimeParseVal layout value).isSome

/-! ## Type inference (`flatfile.go`: `inferType`, `getDominantType`) -/

/-- `inferType`: classify one raw text value into a semantic type name. -/
def inferType (value : String) : String :=
  if value = "" then "Nullable(String)"
  else if (goParseInt64 value).isSome then "Int64"
  else if goParseFloatOk value then "Float64"
  else if dateFormats.any (fun fm => goTimeParseOk fm value) then "DateTime"
  else "String"

/-- Occurrence count of a type name in a sample list (`counts[t]` of the
Go map built by `getDominantType`). -/
def countOf (types : List String) (t : String) : Nat :=
  (types.filter (· = t)).length

/-- Distinct keys of the Go count map.  Go map iteration order is not
specified; the embedding fixes first-insertion order, which is one
admissible iteration order (results that depend on it are noted where
they matter). -/
def keysInOrder (types : List String) : List String :=
  types.foldl (fun acc t => if t ∈ acc then acc else acc ++ [t]) []

/-- The `maxCount` loop of `getDominantType`: modal type, starting from
`("String", 0)` and replacing only on strictly greater count. -/
def modalType (types : List String) : String :=
  ((keysInOrder types).foldl
    (fun (st : Nat × String) t =>
      if countOf types t > st.1 then (countOf types t, t) else st)
    (0, "String")).2

/-- `getDominantType`: reduce a sample of classifications to one type. -/
def getDominantType (types : List String) : String :=
  if types.length = 0 then "String"
  else
    let dominantType := modalType types
    if countOf types "Int64" > 0 && countOf types "Float64" > 0 then "Float64"
    else if countOf types "Nullable(String)" > 0 && dominantType ≠ "String" then
      "Nullable(" ++ dominantType ++ ")"
    else dominantType

/-! ## Dynamic values (`interface{}` cells) and `convertValue`

Row cells are modelled as a tagged union.  Floating-point cells carry the
exact rational value of the parsed literal: IEEE-754 rounding and the
shortest-round-trip rendering of `fmt`'s `%v` are not modelled, so float
texts are faithful exactly for literals that are shortest representations
(the common case); integer, string, boolean, nil and time cells are
rendered as `fmt.Sprintf("%v", x)` does. -/

/-- A `float64` cell: finite value (exact rational), infinity or NaN. -/
inductive FloatVal
  | finite (q : ℚ)
  | inf (neg : Bool)
  | nan
deriving DecidableEq, Repr

/-- An `interface{}` cell value. -/
inductive GoValue
  | null
  | int (i : Int)
  | float (f : FloatVal)
  | goBool (b : Bool)
  | time (t : GoTime)
  | str (s : String)
deriving DecidableEq, Repr

/-- Strip all factors `p` from `n`, returning the cofactor and the count. -/
def stripFactor (p : Nat) : Nat → Nat × Nat
  | n =>
    if h : 2 ≤ p ∧ 0 < n ∧ n % p = 0 then
      let r := stripFactor p (n / p)
      (r.1, r.2 + 1)
    else (n, 0)
  termination_by n => n
  decreasing_by exact Nat.div_lt_self h.2.1 (by omega)

/-- Left-pad the decimal rendering of `n` with zeros to width `w`. -/
def padNum (w n : Nat) : String :=
  let s := toString n
  ⟨List.replicate (w - s.length) '0' ++ s.toList⟩

/-- `strconv.FormatFloat(f, g, -1, 64)` (the `%v` rendering) on the
model's exact-decimal floats: fixed notation unless the scientific
exponent is below −4 or at least 21. -/
def goFloatText (f : FloatVal) : String :=
  match f with
  | .nan => "NaN"
  | .inf neg => if neg then "-Inf" else "+Inf"
  | .finite q =>
    if q = 0 then "0"
    else
      let sign := if q < 0 then "-" else ""
      let n := q.num.natAbs
      let (d2, a) := stripFactor 2 q.den
      let (d5, b) := stripFactor 5 d2
      if d5 ≠ 1 then sign ++ toString q.num.natAbs ++ "/" ++ toString q.den
      else
        let m := max a b
        let m0 := n * 2 ^ (m - a) * 5 ^ (m - b)
        let (mr, z) := stripFactor 10 m0
        let e10 : Int := (z : Int) - (m : Int)
        let digits := toString mr
        let k := digits.length
        let sciExp : Int := e10 + k - 1
        if sciExp < -4 ∨ 21 ≤ sciExp then
          let d1 := digits.take 1
          let drest := digits.drop 1
          let mant := if drest = "" then d1 else d1 ++ "." ++ drest
          sign ++ mant ++ "e" ++ (if sciExp < 0 then "-" else "+") ++
            padNum 2 sciExp.natAbs
        else
          if 0 ≤ e10 then sign ++ digits ++ ⟨List.replicate e10.toNat '0'⟩
          else
            let fr := (-e10).toNat
            if k > fr then
              sign ++ digits.take (k - fr) ++ "." ++ digits.drop (k - fr)
            else sign ++ "0." ++ ⟨List.replicate (fr - k) '0'⟩ ++ digits

/-- The `±hhmm` numeric zone rendering of a minute offset. -/
def offsetText (off : Int) : String :=
  (if off < 0 then "-" else "+") ++ padNum 2 (off.natAbs / 60) ++
    padNum 2 (off.natAbs % 60)

/-- `time.Time.String()` (the `%v` rendering): layout
`2006-01-02 15:04:05.999999999 -0700 MST` with trailing fraction zeros
trimmed and the numeric offset repeated for unnamed zones. -/
def goTimeText (t : GoTime) : String :=
  let frac :=
    if t.nanos = 0 then ""
    else "." ++ ⟨(padNum 9 t.nanos).toList.reverse.dropWhile (· = '0') |>.reverse⟩
  padNum 4 t.year ++ "-" ++ padNum 2 t.month ++ "-" ++ padNum 2 t.day ++ " " ++
    padNum 2 t.hour ++ ":" ++ padNum 2 t.minute ++ ":" ++ padNum 2 t.second ++
    frac ++ " " ++ offsetText t.offsetMin ++ " " ++
    (if t.namedUTC then "UTC" else offsetText t.offsetMin)

/-- `fmt.Sprintf("%v", x)` on a cell value. -/
def goValueText : GoValue → String
  | .null => "<nil>"
  | .int i => toString i
  | .float f => goFloatText f
  | .goBool b => if b then "true" else "false"
  | .time t => goTimeText t
  | .str s => s

/-- `strconv.ParseBool`: the twelve accepted literals. -/
def goParseBool (s : String) : Option Bool :=
  if s ∈ ["1", "t", "T", "TRUE", "true", "True"] then some true
  else if s ∈ ["0", "f", "F", "FALSE", "false", "False"] then some false
  else none

/-- `10^e` over `ℚ` for a signed exponent. -/
def qpow10 (e : Int) : ℚ :=
  if 0 ≤ e then ((10 : ℚ) ^ e.toNat) else 1 / ((10 : ℚ) ^ (-e).toNat)

/-- Value of a hexadecimal digit list. -/
def hexDigitsVal (l : List Char) : Nat :=
  l.foldl
    (fun n c =>
      n * 16 + (if c.isDigit then c.toNat - 48 else c.toLower.toNat - 87)) 0

/-- The exact value denoted by a literal accepted by
`strconv.ParseFloat` (see the module note: IEEE rounding not modelled). -/
def goParseFloatVal (s : String) : FloatVal :=
  let cs := s.toList
  let (neg, body0) := stripSign cs
  if lowerEq body0 "inf".toList || lowerEq body0 "infinity".toList then .inf neg
  else if lowerEq cs "nan".toList then .nan
  else
    let body := body0.filter (· ≠ '_')
    match body with
    | '0' :: x :: rest =>
      if x.toLower = 'x' then
        let (h1, r1) := takeHexDigits rest
        let (h2, r2) :=
          match r1 with
          | '.' :: r2a => takeHexDigits r2a
          | r => ([], r)
        let pexp : Int :=
          match r2 with
          | _ :: prest =>
            let (psgn, pds) := stripSign prest
            let e : Int := digitsVal (takeDigits pds).1
            if psgn then -e else e
          | [] => 0
        let mant : ℚ := (hexDigitsVal (h1 ++ h2) : ℚ) / ((16 : ℚ) ^ h2.length)
        let tp : Int := pexp
        let p2 : ℚ :=
          if 0 ≤ tp then ((2 : ℚ) ^ tp.toNat) else 1 / ((2 : ℚ) ^ (-tp).toNat)
        .finite ((if neg then -1 else 1) * mant * p2)
      else
        .finite (goDecLitVal neg body)
    | _ => .finite (goDecLitVal neg body)
where
  /-- Value of a decimal float literal body (sign stripped). -/
  goDecLitVal (neg : Bool) (body : List Char) : ℚ :=
    let (d1, r1) := takeDigits body
    let (d2, r2) :=
      match r1 with
      | '.' :: r2a => takeDigits r2a
      | r => ([], r)
    let e : Int :=
      match r2 with
      | _ :: erest =>
        let (esgn, eds) := stripSign erest
        let ev : Int := digitsVal (takeDigits eds).1
        if esgn then -ev else ev
      | [] => 0
    (if neg then -1 else 1) * (digitsVal (d1 ++ d2) : ℚ) *
      qpow10 (e - d2.length)

/-- One step of `convertValue`'s `Nullable(...)` unwrapping plus the type
switch; fuel bounds the `Nullable` nesting depth (type names are ASCII,
so Go's byte slicing `dataType[9:len-1]` is character slicing). -/
def convertValueFuel : Nat → String → String → GoValue
  | 0, value, _ => .str value
  | fuel + 1, value, dataType =>
    if dataType.startsWith "Nullable(" && dataType.endsWith ")" then
      if value = "" then .null
      else convertValueFuel fuel value ⟨(dataType.toList.drop 9).dropLast⟩
    else if dataType ∈ ["Int8", "Int16", "Int32", "Int64",
        "UInt8", "UInt16", "UInt32", "UInt64"] then
      match goParseInt64 value with
      | some i => .int i
      | none => .int 0
    else if dataType ∈ ["Float32", "Float64"] then
      if goParseFloatOk value then .float (goParseFloatVal value)
      else .float (.finite 0)
    else if dataType = "Bool" then
      match goParseBool value with
      | some b => .goBool b
      | none => .goBool false
    else if dataType ∈ ["Date", "DateTime"] then
      match dateFormats.findSome? (fun fm => goTimeParseVal fm value) with
      | some t => .time t
      | none => .time goZeroTime
    else .str value

/-- `convertValue`: convert a textual field to the cell value dictated by
a column type. -/
def convertValue (value dataType : String) : GoValue :=
  convertValueFuel (dataType.length + 1) value dataType

/-! ## Query builder (`clickhouse.go`: `BuildJoinQuery`) -/

/-- The table-qualified select list built by `BuildJoinQuery`:
`table.column` for every selected column, tables in given order. -/
def qualifiedColumns (tables : List JoinTableInfo) : List String :=
  tables.flatMap (fun t => t.selectedColumns.map (fun c => t.name ++ "." ++ c))

/-- One join clause of the loop body: defaulted join type, table name,
`ON` condition. -/
def joinClause (t : JoinTableInfo) : String :=
  " " ++ (if t.joinType = "" then "INNER JOIN" else t.joinType) ++ " " ++
    t.name ++ " ON " ++ t.joinCondition

/-- The join loop of `BuildJoinQuery`: visits the non-driving tables in
order, failing on the first one whose join condition is empty. -/
def buildJoins : List JoinTableInfo → Except String String
  | [] => .ok ""
  | t :: ts =>
    if t.joinCondition = "" then
      .error ("join condition is required for table " ++ t.name)
    else
      match buildJoins ts with
      | .error e => .error e
      | .ok rest => .ok (joinClause t ++ rest)

/-- `BuildJoinQuery`: validates the join specification and synthesizes
the SELECT...JOIN...WHERE string. -/
def buildJoinQuery (params : JoinParams) : Except String String :=
  if params.tables.length < 2 then
    .error "at least two tables are required for a join"
  else
    match params.tables with
    | [] => .error "at least two tables are required for a join"
    | mainTable :: rest =>
      let allColumns := qualifiedColumns params.tables
      if allColumns.length = 0 then .error "no columns selected"
      else
        match buildJoins rest with
        | .error e => .error e
        | .ok joins =>
          let query :=
            "SELECT " ++ String.intercalate ", " allColumns ++ " FROM " ++
              mainTable.name ++ joins
          .ok (if params.whereClause ≠ "" then
                 query ++ " WHERE " ++ params.whereClause
               else query)

/-! ## Delimiter handling (`flatfile.go`)

All four flat-file operations start with the same block: the delimiter
rune defaults to `','` and, for a non-empty delimiter string, is its
first rune; the remaining runes are never read. -/

/-- The effective field-delimiter rune of the four flat-file operations. -/
def effectiveDelim (delimiter : String) : Char :=
  if delimiter ≠ "" then
    match delimiter.toList with
    | c :: _ => c
    | [] => ','
  else ','

/-! ## `encoding/csv` (the fragment exercised by `flatfile.go`)

The writer is modelled in full (field quoting per `fieldNeedsQuotes` with
`UseCRLF = false`; the `Write` error for an invalid comma rune —
`validDelim` rejects `"`, CR, LF — is not modelled, so those delimiters
are outside the modelled scope).  The reader is modelled with the
options the source sets (`LazyQuotes = true`, `TrimLeadingSpace = true`,
`FieldsPerRecord` unused): `readLine` normalizes every `\r\n` to `\n`,
blank lines are skipped at record starts, leading white space of a field
is trimmed, quoted fields unescape doubled quotes, may span lines, and
under `LazyQuotes` keep bare quotes and survive an unterminated quote at
end of input.  (The `readLine` drop of a trailing `\r` at end of input
without a terminator is not modelled; the repository's writer terminates
every line.) -/

/-- `unicode.IsSpace` on the Latin-1 range (higher code points that Go
also treats as space do not occur in the repository's data paths). -/
def goIsSpace (c : Char) : Bool :=
  c = ' ' || c = '\t' || c = '\n' || c = '\r' ||
    c = '\u000B' || c = '\u000C' || c = '\u0085' || c = ' '

/-- `csv.Writer.fieldNeedsQuotes`: empty fields are bare; `\.`, fields
containing the comma, a quote or a line break, and fields starting with
white space are quoted. -/
def fieldNeedsQuotes (comma : Char) (field : String) : Bool :=
  if field = "" then false
  else if field = "\\." then true
  else if comma = ' ' && field.toList.any (fun r => goIsSpace r && r ≠ ' ') then
    true
  else if field.toList.any (fun c => c = comma || c = '"' || c = '\r' || c = '\n') then
    true
  else
    match field.toList with
    | c :: _ => goIsSpace c
    | [] => false

/-- Double every quote of a quoted field's content. -/
def escapeQuotes (l : List Char) : List Char :=
  l.flatMap (fun c => if c = '"' then ['"', '"'] else [c])

/-- Quote a field: surround with quotes, doubling interior quotes
(`UseCRLF = false` keeps `\r` and `\n` as written). -/
def quoteField (field : String) : String :=
  "\"" ++ (⟨escapeQuotes field.data⟩ : String) ++ "\""

/-- `csv.Writer.Write` of one field. -/
def encodeField (comma : Char) (field : String) : String :=
  if fieldNeedsQuotes comma field then quoteField field else field

/-- Interleave the comma rune between field character lists. -/
def joinFields (comma : Char) : List (List Char) → List Char
  | [] => []
  | [f] => f
  | f :: rest => f ++ comma :: joinFields comma rest

/-- `csv.Writer.Write` of one record: encoded fields joined by the comma
rune, terminated by `\n` (`UseCRLF = false`). -/
def writeRecordLine (comma : Char) (fields : List String) : String :=
  ⟨joinFields comma (fields.map (fun f => (encodeField comma f).toList)) ++ ['\n']⟩

/-- `csv.Reader.readLine`: every `\r` immediately followed by `\n` is
removed (each `\r\n` in the input sits at the end of some read line and
is normalized to `\n`). -/
def normalizeCRLF : List Char → List Char
  | [] => []
  | c :: rest =>
    if c = '\r' ∧ rest.head? = some '\n' then normalizeCRLF rest
    else c :: normalizeCRLF rest

/-- Whether the character list contains a `\r\n` pair. -/
def hasCRLF : List Char → Bool
  | [] => false
  | c :: rest => (c = '\r' && rest.head? = some '\n') || hasCRLF rest

/-- The quoted-field loop of `csv.Reader.Read`, entered after the
opening quote: `""` yields a literal quote, `",` ends the field, `"\n`
ends the record, a bare `"` (LazyQuotes) is kept, the line terminator
inside the quotes is ordinary content (a quoted field spans lines), and
input ending inside the quotes ends field and record (LazyQuotes).
Returns the field, whether a comma followed (more fields), and the rest
of the input. -/
def parseQuotedField (comma : Char) : List Char → List Char × Bool × List Char
  | [] => ([], false, [])
  | c :: rest =>
    if c = '"' then
      match rest with
      | [] => ([], false, [])
      | c2 :: rest2 =>
        if c2 = '"' then
          let r := parseQuotedField comma rest2
          ('"' :: r.1, r.2.1, r.2.2)
        else if c2 = comma then ([], true, rest2)
        else if c2 = '\n' then ([], false, rest2)
        else
          let r := parseQuotedField comma (c2 :: rest2)
          ('"' :: r.1, r.2.1, r.2.2)
    else
      let r := parseQuotedField comma rest
      (c :: r.1, r.2.1, r.2.2)
  termination_by s => s.length
  decreasing_by
    all_goals simp only [List.length_cons]
    all_goals omega

/-- One field of `csv.Reader.Read`: leading white space before the field
is trimmed (`TrimLeadingSpace`; a `\n` reached this way ends the record
with an empty field, matching Go trimming away a blank remainder of the
line), then a quoted or bare field; a bare field runs to the comma or
the line end. -/
def parseOneField (comma : Char) (s : List Char) : List Char × Bool × List Char :=
  let s1 := s.dropWhile (fun c => goIsSpace c && c ≠ '\n')
  if s1.head? = some '"' then parseQuotedField comma (s1.drop 1)
  else
    let f := s1.takeWhile (fun c => c ≠ comma && c ≠ '\n')
    match s1.dropWhile (fun c => c ≠ comma && c ≠ '\n') with
    | c :: rest => if c = comma then (f, true, rest) else (f, false, rest)
    | [] => (f, false, [])

/-- One record: fields while each ends at a comma. -/
def readRecordAux (comma : Char) : Nat → List Char → List (List Char) × List Char
  | 0, s => ([], s)
  | fuel + 1, s =>
    if (parseOneField comma s).2.1 then
      ((parseOneField comma s).1 ::
          (readRecordAux comma fuel (parseOneField comma s).2.2).1,
        (readRecordAux comma fuel (parseOneField comma s).2.2).2)
    else ([(parseOneField comma s).1], (parseOneField comma s).2.2)

/-- All records: blank lines are skipped at record starts. -/
def readAllRecordsAux (comma : Char) : Nat → List Char → List (List String)
  | 0, _ => []
  | fuel + 1, s =>
    if s = [] then []
    else if s.head? = some '\n' then readAllRecordsAux comma fuel (s.drop 1)
    else
      ((readRecordAux comma (s.length + 1) s).1.map (fun f => (⟨f⟩ : String))) ::
        readAllRecordsAux comma fuel (readRecordAux comma (s.length + 1) s).2

/-- `csv.Reader`: the record sequence of a file's content. -/
def parseRecords (comma : Char) (content : String) : List (List String) :=
  readAllRecordsAux comma (content.toList.length + 1) (normalizeCRLF content.toList)

/-! ## Flat-file operations (`flatfile.go`)

Rows flowing towards a file are name-keyed (`map[string]interface{}`,
modelled as an association list with first-match lookup); rows flowing
out of a file are positional (`[]interface{}`).  File-system errors
(open/create/permission) and context cancellation are not modelled: the
models describe the data transformation of a completed call. -/

/-- A name-keyed row. -/
abbrev RowMap := List (String × GoValue)

/-- The header's name→position index: built by assignment in header
order, so a duplicated name keeps its last position. -/
def colNameToIndex (header : List String) (name : String) : Option Nat :=
  header.enum.foldl (fun acc p => if p.2 = name then some p.1 else acc) none

/-- `DiscoverSchema`: header names plus types inferred over the first
100 data records (records with a field count differing from the header
are read but skipped). -/
def discoverSchema (content delimiter : String) : Except String (List Column) :=
  let comma := effectiveDelim delimiter
  match parseRecords comma content with
  | [] => .error "failed to read header"
  | header :: records =>
    let sample := (records.take 100).filter (fun r => r.length = header.length)
    .ok ((List.range header.length).map (fun j =>
      Column.mk (header.getD j "")
        (getDominantType (sample.map (fun r => inferType (r.getD j ""))))))

/-- `PreviewData`: up to `limit` records as name-keyed converted rows;
an empty column selection means all header columns typed `String`. -/
def previewData (content delimiter : String) (columns : List Column)
    (limit : Nat) : Except String (List RowMap) :=
  let comma := effectiveDelim delimiter
  match parseRecords comma content with
  | [] => .error "failed to read header"
  | header :: records =>
    let selected :=
      if columns = [] then header.map (fun n => Column.mk n "String") else columns
    let rows := (records.take limit).filter (fun r => r.length = header.length)
    .ok (rows.map (fun record =>
      selected.foldr (fun col acc =>
        match colNameToIndex header col.name with
        | none => acc
        | some i =>
          if i < record.length then
            (col.name, convertValue (record.getD i "") col.type) :: acc
          else acc) []))

/-- `ReadData`: the positional rows delivered on the output channel — one
per record whose field count matches the header, cells converted by the
requested column list (a name absent from the header yields `nil`). -/
def readData (content delimiter : String) (columns : List Column) :
    Except String (List (List GoValue)) :=
  let comma := effectiveDelim delimiter
  match parseRecords comma content with
  | [] => .error "failed to read header"
  | header :: records =>
    .ok ((records.filter (fun r => r.length = header.length)).map (fun record =>
      columns.map (fun col =>
        match colNameToIndex header col.name with
        | none => GoValue.null
        | some i =>
          if i < record.length then convertValue (record.getD i "") col.type
          else GoValue.null)))

/-- The textual field written for one column of one row: a missing key
becomes the empty field, otherwise `fmt.Sprintf("%v", value)`. -/
def writeFieldText (row : RowMap) (col : Column) : String :=
  match row.lookup col.name with
  | none => ""
  | some v => goValueText v

/-- The row loop of `WriteData`: returns the written content after the
header line, the row count, and the progress events. -/
def writeRowsAux (comma : Char) (columns : List Column) (reportSize : Nat) :
    List RowMap → Nat → Nat → String × Nat × List ProgressUpdate
  | [], total, _ => ("", total, [])
  | row :: rest, total, lastRep =>
    let line := writeRecordLine comma (columns.map (writeFieldText row))
    let t2 := total + 1
    let report := t2 - lastRep ≥ reportSize
    let ev : List ProgressUpdate :=
      if report then
        [⟨"processing", "Written " ++ toString t2 ++ " rows", t2, false⟩]
      else []
    let r := writeRowsAux comma columns reportSize rest t2 (if report then t2 else lastRep)
    (line ++ r.1, r.2.1, ev ++ r.2.2)

/-- `WriteData`: header line from the column names, then the consumed
rows projected into column order; returns the file content, the total
row count and the emitted progress events. -/
def writeData (delimiter : String) (columns : List Column) (reportSize : Nat)
    (rows : List RowMap) : String × Nat × List ProgressUpdate :=
  let comma := effectiveDelim delimiter
  let r := writeRowsAux comma columns reportSize rows 0 0
  (writeRecordLine comma (columns.map (·.name)) ++ r.1, r.2)

/-! ## ClickHouse batched insert (`clickhouse.go`: `InsertData`)

The sink is abstracted as an oracle `sink : Nat → Bool` giving the
outcome of the k-th `AsyncInsert` call (the store is an external
collaborator).  The channel argument is modelled by the list of rows the
producer delivers before closing the channel. -/

/-- A positional row. -/
abbrev PosRow := List GoValue

/-- The accumulator state of `InsertData`'s loop. -/
structure InsState where
  totalRows : Nat
  batch : List PosRow
  lastReported : Nat
  events : List ProgressUpdate
  submitIdx : Nat
deriving Repr

/-- The row loop of `InsertData`: batch up rows, submit on reaching the
batch size, report progress on crossing the report threshold, submit a
non-empty trailing batch at end of stream; a failed submission returns
immediately with the count accumulated before the failing batch. -/
def insertLoop (sink : Nat → Bool) (bs rp : Nat) :
    List PosRow → InsState → InsState × Option String
  | [], st =>
    if st.batch.length > 0 then
      if sink st.submitIdx then
        ({ st with totalRows := st.totalRows + st.batch.length, batch := [],
                   submitIdx := st.submitIdx + 1 }, none)
      else (st, some "failed to insert final batch")
    else (st, none)
  | r :: rs, st =>
    let batch2 := st.batch ++ [r]
    if batch2.length ≥ bs then
      if sink st.submitIdx then
        let t2 := st.totalRows + batch2.length
        let report := t2 - st.lastReported ≥ rp
        insertLoop sink bs rp rs
          { totalRows := t2, batch := [],
            lastReported := if report then t2 else st.lastReported,
            events := st.events ++
              (if report then
                [⟨"processing", "Inserted " ++ toString t2 ++ " rows", t2, false⟩]
               else []),
            submitIdx := st.submitIdx + 1 }
      else (st, some "failed to insert batch")
    else insertLoop sink bs rp rs { st with batch := batch2 }

/-- `InsertData`: total inserted rows, progress events, optional error. -/
def insertData (sink : Nat → Bool) (bs rp : Nat) (rows : List PosRow) :
    Nat × List ProgressUpdate × Option String :=
  let r := insertLoop sink bs rp rows ⟨0, [], 0, [], 0⟩
  (r.1.totalRows, r.1.events, r.2)

/-! ## Transfer pipeline and SSE handler
(`ingest.go`: `IngestClickHouseToFlatFile`, `IngestFlatFileToClickHouse`;
`handler.StartIngestion`) -/

/-- The terminal event `StartIngestion` pushes after the ingest call
settles: an `error` event with count 0, or a `success` event with the
returned total. -/
def terminalEvent (r : Except String Nat) : ProgressUpdate :=
  match r with
  | .error m => ⟨"error", m, 0, true⟩
  | .ok n => ⟨"success", "Ingestion completed successfully", n, true⟩

/-- `IngestFlatFileToClickHouse` after a successful `CreateTable` and
`ReadData` open: wraps an insert error, discarding the partial count. -/
def ingestFileToStoreResult (sink : Nat → Bool) (bs rp : Nat)
    (rows : List PosRow) : Except String Nat :=
  let r := insertData sink bs rp rows
  match r.2.2 with
  | some e => .error ("failed to insert data: " ++ e)
  | none => .ok r.1

/-- The progress events a file→store transfer delivers on the progress
channel: the inserter's events followed by the handler's terminal event
(the consumer and the handler are the only senders, strictly in this
order). -/
def fileToStoreEvents (sink : Nat → Bool) (bs rp : Nat)
    (rows : List PosRow) : List ProgressUpdate :=
  (insertData sink bs rp rows).2.1 ++
    [terminalEvent (ingestFileToStoreResult sink bs rp rows)]

/-- What the source side of a store→file transfer does: the query fails,
or it yields rows and then ends cleanly or with an iteration error. -/
inductive SourceOutcome
  | queryError (msg : String)
  | rowsThen (rows : List RowMap) (iterError : Option String)

/-- The producer goroutine's periodic `processing` events: one after
every `rp`-th fetched row. -/
def producerProcessingEvents (rp n : Nat) : List ProgressUpdate :=
  (List.range n).filterMap (fun i =>
    if (i + 1) % rp = 0 then
      some ⟨"processing", "Fetched " ++ toString (i + 1) ++ " rows", i + 1, false⟩
    else none)

/-- The producer goroutine of `IngestClickHouseToFlatFile`: the events it
sends on the progress channel and the rows it delivers on the data
channel.  On a query error or an iteration error it sends its own
`completed=true` error event. -/
def producerOutput (rp : Nat) : SourceOutcome → List ProgressUpdate × List RowMap
  | .queryError m => ([⟨"error", "Failed to execute query: " ++ m, 0, true⟩], [])
  | .rowsThen rows none => (producerProcessingEvents rp rows.length, rows)
  | .rowsThen rows (some m) =>
    (producerProcessingEvents rp rows.length ++
      [⟨"error", "Error iterating rows: " ++ m, rows.length, true⟩], rows)

/-- The progress events a store→file transfer delivers: producer events,
writer events, then the handler's terminal event.  The listed order is
the producer-first schedule, which is the only possible schedule whenever
the source delivers no rows (the writer then has nothing to process until
the data channel closes); the claims proved below about this trace count
terminal events, which no admissible schedule changes. -/
def storeToFileEvents (rp : Nat) (delimiter : String) (columns : List Column)
    (src : SourceOutcome) : List ProgressUpdate :=
  let p := producerOutput rp src
  let w := writeData delimiter columns rp p.2
  p.1 ++ w.2.2 ++ [terminalEvent (.ok w.2.1)]

/-! ## The bounded data channel (`make(chan ..., 100)`)

Both transfer directions connect producer and consumer through a data
channel of capacity 100 (`ingest.go` line 77, `flatfile.go` line 334).
Go channel semantics: a send blocks (cannot step) while the buffer holds
100 items; a receive removes the oldest item. -/

/-- A pipeline configuration: rows not yet sent, rows buffered in the
channel, rows already received by the consumer. -/
structure PipeState where
  pending : List RowMap
  buffer : List RowMap
  consumed : List RowMap

/-- One scheduler step: the producer sends into a non-full buffer, or
the consumer receives from a non-empty buffer. -/
inductive PipeStep : PipeState → PipeState → Prop
  | send (r : RowMap) (p b c : List RowMap) (h : b.length < 100) :
      PipeStep ⟨r :: p, b, c⟩ ⟨p, b ++ [r], c⟩
  | recv (r : RowMap) (p b c : List RowMap) :
      PipeStep ⟨p, r :: b, c⟩ ⟨p, b, c ++ [r]⟩

/-- Reachability under arbitrary interleaving. -/
def PipeReachable : PipeState → PipeState → Prop :=
  Relation.ReflTransGen PipeStep

/-! # Theorems -/

/-- Modelled from the spec: the "dominant resolved type" of a sample —
the modal type, after applying the numeric-widening rule. -/
def specResolvedType (types : List String) : String :=
  if 0 < countOf types "Int64" ∧ 0 < countOf types "Float64" then "Float64"
  else modalType types

/-- Modelled from the spec: membership in the closed `SemanticType`
taxonomy — one of the five base types or `Nullable(base)`. -/
def specSemanticTypeOk (t : String) : Bool :=
  let bases := ["String", "Int64", "Float64", "Bool", "DateTime"]
  bases.contains t || bases.any (fun b => t = "Nullable(" ++ b ++ ")")

/-- A positive occurrence count forces a non-empty sample list. -/
theorem countOf_pos_ne_nil {types : List String} {t : String}
    (h : 0 < countOf types t) : types.length ≠ 0 := by
  intro h0
  rw [List.length_eq_zero] at h0
  subst h0
  simp [countOf] at h

/-- C4: whenever both `Int64` and `Float64` occur with non-zero count
among the classifications, `getDominantType` returns `Float64`,
regardless of which has the higher count and of every other type's
count. -/
theorem getDominantType_widens (types : List String)
    (h1 : 0 < countOf types "Int64") (h2 : 0 < countOf types "Float64") :
    getDominantType types = "Float64" := by
  unfold getDominantType
  rw [if_neg (countOf_pos_ne_nil h1)]
  have hc : (decide (countOf types "Int64" > 0) &&
      decide (countOf types "Float64" > 0)) = true := by
    simp only [Bool.and_eq_true, decide_eq_true_eq]
    exact ⟨h1, h2⟩
  rw [if_pos hc]

/-- Witness for C4 at a concrete sample where `Int64` outnumbers `Float64`. -/
theorem getDominantType_widens_witness :
    getDominantType ["Int64", "Int64", "Float64"] = "Float64" :=
  getDominantType_widens _ (by decide) (by decide)

/-- Counterexample to C3 as stated: the sample `["", "1", "2.5"]`
classifies to `[Nullable(String), Int64, Float64]`; the empty-value
sentinel is present, the dominant resolved type is `Float64` (by the
numeric-widening rule) and is not plain `String`, yet the returned type
is plain `Float64`, not `Nullable(Float64)`: the widening early-return
precedes the `Nullable` wrapping. -/
theorem getDominantType_no_wrap_on_widen :
    0 < countOf [inferType "", inferType "1", inferType "2.5"] "Nullable(String)" ∧
    specResolvedType [inferType "", inferType "1", inferType "2.5"] = "Float64" ∧
    specResolvedType [inferType "", inferType "1", inferType "2.5"] ≠ "String" ∧
    getDominantType [inferType "", inferType "1", inferType "2.5"] ≠
      "Nullable(" ++ specResolvedType [inferType "", inferType "1", inferType "2.5"] ++ ")" ∧
    getDominantType [inferType "", inferType "1", inferType "2.5"] = "Float64" := by
  decide

/-- C3 (amended): if the empty-value sentinel is present and the modal
type is not plain `String`, the result is the modal type wrapped in
`Nullable(...)` — except when both `Int64` and `Float64` occur, in which
case the numeric-widening rule returns plain `Float64` unwrapped. -/
theorem getDominantType_nullable_wrap (types : List String)
    (h1 : 0 < countOf types "Nullable(String)")
    (h2 : modalType types ≠ "String")
    (h3 : ¬(0 < countOf types "Int64" ∧ 0 < countOf types "Float64")) :
    getDominantType types = "Nullable(" ++ modalType types ++ ")" := by
  unfold getDominantType
  rw [if_neg (countOf_pos_ne_nil h1)]
  have hw : (decide (countOf types "Int64" > 0) &&
      decide (countOf types "Float64" > 0)) = false := by
    rw [Bool.and_eq_false_iff]
    by_cases hi : 0 < countOf types "Int64"
    · right
      simp only [decide_eq_false_iff_not]
      exact fun hf => h3 ⟨hi, hf⟩
    · left
      simpa using hi
  rw [if_neg (by simp [hw])]
  have hn : (decide (countOf types "Nullable(String)" > 0) &&
      decide (modalType types ≠ "String")) = true := by
    simp only [Bool.and_eq_true, decide_eq_true_eq]
    exact ⟨h1, h2⟩
  rw [if_pos hn]

/-- Witness for the amended C3 at a concrete sample. -/
theorem getDominantType_nullable_wrap_witness :
    getDominantType ["Nullable(String)", "Int64", "Int64"] = "Nullable(Int64)" :=
  getDominantType_nullable_wrap _ (by decide) (by decide) (by decide)

/-- C8: the claim fails on the code — a sample whose values were all
empty has `Nullable(String)` itself as the modal type, and the wrapping
step then produces the doubly-nested `Nullable(Nullable(String))`, which
is outside the spec's closed taxonomy.  (Failing input: a column whose
sampled values are all the empty string.) -/
theorem getDominantType_escapes_taxonomy :
    inferType "" = "Nullable(String)" ∧
    getDominantType [inferType ""] = "Nullable(Nullable(String))" ∧
    specSemanticTypeOk "Nullable(Nullable(String))" = false := by
  decide

/-- C9: under the Go semantics of the capacity-100 data channel — a send
blocks while 100 rows are buffered — every configuration reachable from
a start state with an empty buffer holds at most 100 in-flight rows, for
any interleaving of producer and consumer. -/
theorem pipe_buffer_bounded (s0 s : PipeState) (h0 : s0.buffer = [])
    (h : PipeReachable s0 s) : s.buffer.length ≤ 100 := by
  induction h with
  | refl => simp [h0]
  | tail _ step ih =>
    cases step with
    | send r p b c hlt =>
      show (b ++ [r]).length ≤ 100
      simp only [List.length_append, List.length_singleton]
      omega
    | recv r p b c =>
      simp only [List.length_cons] at ih
      show b.length ≤ 100
      omega

/-- Witness for C9: the initial state of a transfer is reachable and
within the bound. -/
theorem pipe_buffer_bounded_witness :
    (PipeState.mk [[("id", GoValue.int 1)]] [] []).buffer.length ≤ 100 :=
  pipe_buffer_bounded _ _ rfl Relation.ReflTransGen.refl

/-- A string built from a non-empty character list is not the empty string. -/
theorem stringMk_cons_ne_empty (c : Char) (cs : List Char) :
    (⟨c :: cs⟩ : String) ≠ "" := by
  intro h
  have : (⟨c :: cs⟩ : String).data = ("" : String).data := by rw [h]
  simp at this

/-- The effective delimiter of a non-empty delimiter string is its first
character, whatever follows it. -/
theorem effectiveDelim_cons (c : Char) (cs : List Char) :
    effectiveDelim ⟨c :: cs⟩ = c := by
  unfold effectiveDelim
  rw [if_pos (stringMk_cons_ne_empty c cs)]
  rfl

/-- C10: every flat-file operation defaults an empty delimiter string to
`','` and otherwise uses only the first character of the delimiter
string — `DiscoverSchema`, `PreviewData`, `ReadData` and `WriteData`
behave identically under a delimiter and under its first character
alone. -/
theorem flatfile_delimiter_first_char :
    effectiveDelim "" = ',' ∧
    (∀ (c : Char) (cs : List Char), effectiveDelim ⟨c :: cs⟩ = c) ∧
    (∀ (c : Char) (cs : List Char) (content : String) (columns : List Column)
        (limit rp : Nat) (rows : List RowMap),
      discoverSchema content ⟨c :: cs⟩ = discoverSchema content ⟨[c]⟩ ∧
      previewData content ⟨c :: cs⟩ columns limit =
        previewData content ⟨[c]⟩ columns limit ∧
      readData content ⟨c :: cs⟩ columns = readData content ⟨[c]⟩ columns ∧
      writeData ⟨c :: cs⟩ columns rp rows = writeData ⟨[c]⟩ columns rp rows) := by
  refine ⟨rfl, effectiveDelim_cons, ?_⟩
  intro c cs content columns limit rp rows
  have h : effectiveDelim ⟨c :: cs⟩ = effectiveDelim ⟨[c]⟩ := by
    rw [effectiveDelim_cons, effectiveDelim_cons]
  exact ⟨by unfold discoverSchema; rw [h],
         by unfold previewData; rw [h],
         by unfold readData; rw [h],
         by unfold writeData; rw [h]⟩

/-- C5: `inferType` applies the first matching rule of the fixed order —
the five specified evaluations hold, a value that parses as an integer
is `Int64` even when it also parses as a float, a non-integer float
parse yields `Float64` before any date layout is tried, and a date
match yields `DateTime` only when the numeric parses failed. -/
theorem inferType_first_match :
    inferType "" = "Nullable(String)" ∧
    inferType "42" = "Int64" ∧
    inferType "3.14" = "Float64" ∧
    inferType "2024-01-02" = "DateTime" ∧
    inferType "abc" = "String" ∧
    (∀ v : String, (goParseInt64 v).isSome = true → goParseFloatOk v = true →
      inferType v = "Int64") ∧
    (∀ v : String, v ≠ "" → (goParseInt64 v).isSome = false →
      goParseFloatOk v = true → inferType v = "Float64") ∧
    (∀ v : String, v ≠ "" → (goParseInt64 v).isSome = false →
      goParseFloatOk v = false →
      (dateFormats.any (fun fm => goTimeParseOk fm v)) = true →
      inferType v = "DateTime") := by
  refine ⟨by decide, by decide, by decide, by decide, by decide, ?_, ?_, ?_⟩
  · intro v h1 _
    have hv : v ≠ "" := by
      intro he
      subst he
      rw [show goParseInt64 "" = none from by decide] at h1
      simp at h1
    unfold inferType
    rw [if_neg hv, if_pos h1]
  · intro v hv h1 h2
    unfold inferType
    rw [if_neg hv, if_neg (by simp [h1]), if_pos h2]
  · intro v hv h1 h2 h3
    unfold inferType
    rw [if_neg hv, if_neg (by simp [h1]), if_neg (by simp [h2]), if_pos h3]

/-- Witness for C5 at `"7"`, which parses both as an integer and as a
float and is classified `Int64`. -/
theorem inferType_first_match_witness : inferType "7" = "Int64" :=
  inferType_first_match.2.2.2.2.2.1 "7" (by decide) (by decide)

/-- Concatenation of a list of strings in order. -/
def concatStrings : List String → String
  | [] => ""
  | s :: rest => s ++ concatStrings rest

/-- When every non-driving table has a join condition, the join loop
succeeds and emits the clauses in table order. -/
theorem buildJoins_ok (ts : List JoinTableInfo)
    (h : ∀ t ∈ ts, t.joinCondition ≠ "") :
    buildJoins ts = .ok (concatStrings (ts.map joinClause)) := by
  induction ts with
  | nil => rfl
  | cons t ts ih =>
    unfold buildJoins
    rw [if_neg (h t (List.mem_cons_self t ts))]
    rw [ih (fun u hu => h u (List.mem_cons_of_mem t hu))]
    rfl

/-- When some non-driving table lacks a join condition, the join loop
fails. -/
theorem buildJoins_error (ts : List JoinTableInfo)
    (h : ∃ t ∈ ts, t.joinCondition = "") :
    ∃ e, buildJoins ts = .error e := by
  induction ts with
  | nil => simp at h
  | cons t ts ih =>
    unfold buildJoins
    by_cases ht : t.joinCondition = ""
    · exact ⟨_, by rw [if_pos ht]⟩
    · rw [if_neg ht]
      obtain ⟨u, hu, hcond⟩ := h
      rcases List.mem_cons.mp hu with h1 | h2
      · exact absurd (h1 ▸ hcond) ht
      · obtain ⟨e, he⟩ := ih ⟨u, h2, hcond⟩
        exact ⟨e, by rw [he]⟩

/-- No column is selected across the tables iff the qualified select
list is empty. -/
theorem qualifiedColumns_eq_nil (ts : List JoinTableInfo) :
    qualifiedColumns ts = [] ↔ ∀ t ∈ ts, t.selectedColumns = [] := by
  unfold qualifiedColumns
  rw [List.flatMap_eq_nil_iff]
  constructor
  · intro h t ht
    have := h t ht
    rwa [List.map_eq_nil_iff] at this
  · intro h t ht
    rw [h t ht]
    rfl

/-- C6: `BuildJoinQuery` errors exactly when fewer than two tables are
given, or some non-driving table has an empty join condition, or no
column is selected across all tables; on success the query is the
SELECT of all table-qualified columns from the driving table, the join
clauses of the remaining tables in order (join type defaulting to
`INNER JOIN`), and a verbatim `WHERE` clause when the filter is
non-empty. -/
theorem buildJoinQuery_spec (p : JoinParams) :
    ((∃ e, buildJoinQuery p = .error e) ↔
      (p.tables.length < 2 ∨
        (∃ t ∈ p.tables.drop 1, t.joinCondition = "") ∨
        (∀ t ∈ p.tables, t.selectedColumns = []))) ∧
    (∀ q, buildJoinQuery p = .ok q →
      ∃ mainTable rest, p.tables = mainTable :: rest ∧
        q = "SELECT " ++ String.intercalate ", " (qualifiedColumns p.tables) ++
              " FROM " ++ mainTable.name ++ concatStrings (rest.map joinClause) ++
              (if p.whereClause ≠ "" then " WHERE " ++ p.whereClause else "")) := by
  rcases htab : p.tables with _ | ⟨mainTable, rest⟩
  · unfold buildJoinQuery
    rw [htab]
    rw [if_pos (by simp)]
    exact ⟨⟨fun _ => Or.inl (by simp [htab]), fun _ => ⟨_, rfl⟩⟩, fun q hq => by cases hq⟩
  · unfold buildJoinQuery
    rw [htab]
    by_cases hlen : (mainTable :: rest).length < 2
    · rw [if_pos hlen]
      exact ⟨⟨fun _ => Or.inl hlen, fun _ => ⟨_, rfl⟩⟩, fun q hq => by cases hq⟩
    · rw [if_neg hlen]
      dsimp only
      by_cases hcols : qualifiedColumns (mainTable :: rest) = []
      · rw [if_pos (by rw [hcols]; rfl)]
        refine ⟨⟨fun _ => ?_, fun _ => ⟨_, rfl⟩⟩, fun q hq => by cases hq⟩
        exact Or.inr (Or.inr ((qualifiedColumns_eq_nil _).mp hcols))
      · rw [if_neg (fun h => hcols (List.length_eq_zero.mp h))]
        by_cases hjoin : ∃ t ∈ rest, t.joinCondition = ""
        · obtain ⟨e, he⟩ := buildJoins_error rest hjoin
          rw [he]
          refine ⟨⟨fun _ => Or.inr (Or.inl ?_), fun _ => ⟨e, rfl⟩⟩,
                  fun q hq => by cases hq⟩
          simpa using hjoin
        · have hall : ∀ t ∈ rest, t.joinCondition ≠ "" := by
            intro t ht
            exact fun hc => hjoin ⟨t, ht, hc⟩
          rw [buildJoins_ok rest hall]
          dsimp only
          constructor
          · constructor
            · rintro ⟨e, he⟩
              cases he
            · intro h
              rcases h with h | h | h
              · exact absurd h hlen
              · exact absurd (by simpa using h) hjoin
              · exact absurd ((qualifiedColumns_eq_nil _).mpr h) hcols
          · intro q hq
            refine ⟨mainTable, rest, rfl, ?_⟩
            have hinj := Except.ok.inj hq
            rw [← hinj]
            by_cases hw : p.whereClause ≠ ""
            · rw [if_pos hw, if_pos hw]
              simp [String.append_assoc]
            · rw [if_neg hw, if_neg hw]
              simp

/-- Witness for C6: a valid two-table join specification produces the
fully qualified, defaulted, ordered query. -/
theorem buildJoinQuery_spec_witness :
    ∃ mainTable rest,
      (JoinParams.mk
        [⟨"a", "", "", ["x"]⟩, ⟨"b", "", "a.id = b.id", ["y"]⟩] "").tables =
        mainTable :: rest ∧
      "SELECT a.x, b.y FROM a INNER JOIN b ON a.id = b.id" =
        "SELECT " ++ String.intercalate ", "
            (qualifiedColumns (JoinParams.mk
              [⟨"a", "", "", ["x"]⟩, ⟨"b", "", "a.id = b.id", ["y"]⟩] "").tables) ++
          " FROM " ++ mainTable.name ++ concatStrings (rest.map joinClause) ++
          (if (JoinParams.mk
              [⟨"a", "", "", ["x"]⟩, ⟨"b", "", "a.id = b.id", ["y"]⟩] "").whereClause ≠ ""
           then " WHERE " ++ (JoinParams.mk
              [⟨"a", "", "", ["x"]⟩, ⟨"b", "", "a.id = b.id", ["y"]⟩] "").whereClause
           else "") :=
  (buildJoinQuery_spec _).2 _ rfl

/-- C1: the claim fails on the code — for a store→file transfer whose
source query fails, the delivered stream holds two `completed=true`
events: the producer goroutine's own `error` terminal event, followed by
the orchestrator's `success` terminal event (emitted because `WriteData`
drains the closed channel and returns no error).  The first
`completed=true` event is therefore not the last event, and the terminal
count is not sent exactly once.  (Failing input: any store→file transfer
whose query errors, e.g. message `boom`.) -/
theorem storeToFile_queryError_two_terminals :
    storeToFileEvents 5000 "," [⟨"id", "Int64"⟩] (.queryError "boom") =
      [⟨"error", "Failed to execute query: boom", 0, true⟩,
       ⟨"success", "Ingestion completed successfully", 0, true⟩] ∧
    ((storeToFileEvents 5000 "," [⟨"id", "Int64"⟩]
        (.queryError "boom")).filter (·.completed)).length = 2 := by
  decide

/-- The error shape of `InsertData`'s loop: when the result carries an
error, some submission `k` (counting from the state's next index) failed,
all earlier ones succeeded, and the state's count advanced by exactly
`bs` rows per successful submission — no row past the failing batch is
counted or submitted. -/
theorem insertLoop_error_shape (sink : Nat → Bool) (bs rp : Nat) (hbs : 0 < bs) :
    ∀ (rows : List PosRow) (st st2 : InsState) (e : String),
      st.batch.length < bs →
      insertLoop sink bs rp rows st = (st2, some e) →
      ∃ k, sink (st.submitIdx + k) = false ∧
        (∀ j, j < k → sink (st.submitIdx + j) = true) ∧
        st2.totalRows = st.totalRows + bs * k ∧
        bs * k ≤ st.batch.length + rows.length := by
  intro rows
  induction rows with
  | nil =>
    intro st st2 e hlt h
    unfold insertLoop at h
    by_cases hb : st.batch.length > 0
    · rw [if_pos hb] at h
      by_cases hs : sink st.submitIdx = true
      · rw [if_pos hs] at h
        simp at h
      · rw [if_neg hs] at h
        simp only [Prod.mk.injEq] at h
        refine ⟨0, ?_, ?_, ?_, ?_⟩
        · simpa using (Bool.not_eq_true _).mp hs
        · intro j hj
          exact absurd hj (Nat.not_lt_zero j)
        · rw [← h.1]
          simp
        · simp
    · rw [if_neg hb] at h
      simp at h
  | cons r rs ih =>
    intro st st2 e hlt h
    unfold insertLoop at h
    by_cases hfull : (st.batch ++ [r]).length ≥ bs
    · rw [if_pos hfull] at h
      have hlen : st.batch.length + 1 = bs := by
        simp only [List.length_append, List.length_singleton] at hfull
        omega
      by_cases hs : sink st.submitIdx = true
      · rw [if_pos hs] at h
        obtain ⟨k, hk1, hk2, hk3, hk4⟩ := ih _ st2 e (by simpa using hbs) h
        simp only [List.length_append, List.length_singleton, List.length_nil] at hk1 hk2 hk3 hk4
        refine ⟨k + 1, ?_, ?_, ?_, ?_⟩
        · rw [show st.submitIdx + (k + 1) = st.submitIdx + 1 + k by omega]
          exact hk1
        · intro j hj
          match j with
          | 0 => simpa using hs
          | j + 1 =>
            rw [show st.submitIdx + (j + 1) = st.submitIdx + 1 + j by omega]
            exact hk2 j (by omega)
        · rw [hk3, Nat.mul_succ]
          omega
        · rw [Nat.mul_succ]
          simp only [List.length_cons]
          omega
      · rw [if_neg hs] at h
        simp only [Prod.mk.injEq] at h
        refine ⟨0, ?_, ?_, ?_, ?_⟩
        · simpa using (Bool.not_eq_true _).mp hs
        · intro j hj
          exact absurd hj (Nat.not_lt_zero j)
        · rw [← h.1]
          simp
        · simp
    · rw [if_neg hfull] at h
      have hlt2 : (st.batch ++ [r]).length < bs := by omega
      obtain ⟨k, hk1, hk2, hk3, hk4⟩ := ih _ st2 e hlt2 h
      simp only [List.length_append, List.length_singleton, List.length_nil] at hk4
      refine ⟨k, hk1, hk2, hk3, ?_⟩
      simp only [List.length_cons]
      omega

/-- Counterexample to C2 as stated: with batch size 2, five rows and a
sink that rejects the second submission, `InsertData` aborts and returns
the partial count 2, but the transfer's terminal progress event reports
count 0 — `IngestFlatFileToClickHouse` returns an empty result on error
and the handler's error event hard-codes `Count: 0`, so the preserved
count never reaches the caller. -/
theorem insertData_partial_count_not_in_terminal :
    (insertData (fun k => k != 1) 2 100 (List.replicate 5 [GoValue.int 1])).1 = 2 ∧
    (insertData (fun k => k != 1) 2 100
      (List.replicate 5 [GoValue.int 1])).2.2 = some "failed to insert batch" ∧
    (terminalEvent (ingestFileToStoreResult (fun k => k != 1) 2 100
      (List.replicate 5 [GoValue.int 1]))).count = 0 ∧
    (2 : Nat) ≠ 0 := by
  decide

/-- C2 (amended): a batch-submit failure aborts the file→store transfer —
for some failing submission index `k` with all earlier submissions
successful, `InsertData` returns exactly the `bs·k` rows of the batches
submitted before the failure (no later row is inserted) and reports that
count to its caller; the transfer's terminal progress event, however, is
an `error` event carrying count 0, the partial count being discarded by
the orchestrator and handler. -/
theorem insertData_batch_failure_aborts (sink : Nat → Bool) (bs rp : Nat)
    (rows : List PosRow) (e : String) (hbs : 0 < bs)
    (herr : (insertData sink bs rp rows).2.2 = some e) :
    ∃ k, sink k = false ∧ (∀ j, j < k → sink j = true) ∧
      (insertData sink bs rp rows).1 = bs * k ∧ bs * k ≤ rows.length ∧
      terminalEvent (ingestFileToStoreResult sink bs rp rows) =
        ⟨"error", "failed to insert data: " ++ e, 0, true⟩ := by
  have h1 : (insertData sink bs rp rows).1 =
      (insertLoop sink bs rp rows ⟨0, [], 0, [], 0⟩).1.totalRows := rfl
  have h2 : (insertData sink bs rp rows).2.2 =
      (insertLoop sink bs rp rows ⟨0, [], 0, [], 0⟩).2 := rfl
  rcases hx : insertLoop sink bs rp rows ⟨0, [], 0, [], 0⟩ with ⟨st2, err⟩
  have herr2 : err = some e := by
    rw [h2, hx] at herr
    exact herr
  subst herr2
  obtain ⟨k, hk1, hk2, hk3, hk4⟩ :=
    insertLoop_error_shape sink bs rp hbs rows _ st2 e (by simpa using hbs) hx
  have hterm : ingestFileToStoreResult sink bs rp rows =
      .error ("failed to insert data: " ++ e) := by
    unfold ingestFileToStoreResult
    show (match (insertData sink bs rp rows).2.2 with
      | some e => Except.error ("failed to insert data: " ++ e)
      | none => Except.ok (insertData sink bs rp rows).1) =
        Except.error ("failed to insert data: " ++ e)
    rw [herr]
  refine ⟨k, by simpa using hk1, fun j hj => by simpa using hk2 j hj, ?_, ?_, ?_⟩
  · rw [h1, hx]
    simpa using hk3
  · simpa using hk4
  · rw [hterm]
    rfl

/-- Witness for the amended C2 at the counterexample's concrete input. -/
theorem insertData_batch_failure_aborts_witness :
    ∃ k, (fun j => j != 1) k = false ∧ (∀ j, j < k → (fun i => i != 1) j = true) ∧
      (insertData (fun j => j != 1) 2 100 (List.replicate 5 [GoValue.int 1])).1 = 2 * k ∧
      2 * k ≤ (List.replicate 5 ([GoValue.int 1] : PosRow)).length ∧
      terminalEvent (ingestFileToStoreResult (fun j => j != 1) 2 100
          (List.replicate 5 [GoValue.int 1])) =
        ⟨"error", "failed to insert data: " ++ "failed to insert batch", 0, true⟩ :=
  insertData_batch_failure_aborts (fun j => j != 1) 2 100
    (List.replicate 5 [GoValue.int 1]) "failed to insert batch"
    (by decide) (by decide)

/-- Counterexample to C7 as stated: one `String` column `a`, delimiter
`,`, one well-formed row whose sole field is the empty string.  The
writer emits the record as a blank line (`csv` leaves an empty field
bare), the reader skips blank lines, and the row is lost: writing N = 1
rows reads back 0 rows — a whole-row loss, not one of the documented
value-conversion lossiness cases. -/
theorem roundtrip_loses_blank_record :
    (writeData "," [⟨"a", "String"⟩] 5000 [[("a", GoValue.str "")]]).2.1 = 1 ∧
    (writeData "," [⟨"a", "String"⟩] 5000 [[("a", GoValue.str "")]]).1 = "a\n\n" ∧
    readData (writeData "," [⟨"a", "String"⟩] 5000 [[("a", GoValue.str "")]]).1
      "," [⟨"a", "String"⟩] = .ok [] :=
  ⟨rfl, rfl, rfl⟩

/-- A field that needs no quotes is written bare. -/
theorem encodeField_id (c : Char) (f : String)
    (h : fieldNeedsQuotes c f = false) : encodeField c f = f := by
  unfold encodeField
  rw [h]
  rfl

/-- The character-level content of a quote-free field: no comma, quote,
CR or LF anywhere, and no leading white space. -/
theorem noQuoteFacts (c : Char) (f : String)
    (hq : fieldNeedsQuotes c f = false) :
    (∀ ch ∈ f.data, ¬(ch = c ∨ ch = '"' ∨ ch = '\r' ∨ ch = '\n')) ∧
    (∀ ch, f.data.head? = some ch → goIsSpace ch = false) := by
  unfold fieldNeedsQuotes at hq
  by_cases h1 : f = ""
  · subst h1
    exact ⟨by intro ch hch; simp at hch, by intro ch hch; simp at hch⟩
  · rw [if_neg h1] at hq
    by_cases h2 : f = "\\."
    · rw [if_pos h2] at hq
      cases hq
    · rw [if_neg h2] at hq
      by_cases h3 : c = ' ' && f.toList.any (fun r => goIsSpace r && decide (r ≠ ' '))
      · rw [if_pos h3] at hq
        cases hq
      · rw [if_neg h3] at hq
        by_cases h4 : f.toList.any (fun ch => ch = c || ch = '"' || ch = '\r' || ch = '\n')
        · rw [if_pos h4] at hq
          cases hq
        · rw [if_neg h4] at hq
          have h4f : f.toList.any
              (fun ch => ch = c || ch = '"' || ch = '\r' || ch = '\n') = false :=
            Bool.not_eq_true _ |>.mp h4
          rw [List.any_eq_false] at h4f
          constructor
          · intro ch hch hor
            have := h4f ch hch
            rcases hor with h | h | h | h <;> simp [h] at this
          · intro ch hch
            match hf : f.data with
            | [] =>
              rw [hf] at hch
              cases hch
            | c0 :: rest =>
              have : f.toList = c0 :: rest := hf
              rw [this] at hq
              rw [show f.data.head? = some c0 from by rw [hf]; rfl] at hch
              cases hch
              exact hq

/-- `dropWhile` does nothing when the head (if any) fails the predicate. -/
theorem dropWhile_head_false (p : Char → Bool) (l : List Char)
    (h : ∀ ch, l.head? = some ch → p ch = false) : l.dropWhile p = l := by
  match l with
  | [] => rfl
  | c :: rest =>
    rw [List.dropWhile_cons, if_neg (by simp [h c rfl])]

/-- A joined record is empty only for a single empty field. -/
theorem joinFields_ne_nil (comma : Char) (F : List (List Char))
    (hne : F ≠ []) (h1 : ∀ f, F = [f] → f ≠ []) :
    joinFields comma F ≠ [] := by
  match F with
  | [] => exact absurd rfl hne
  | [f] => exact h1 f rfl
  | f :: g :: rest =>
    show f ++ comma :: joinFields comma (g :: rest) ≠ []
    intro h
    have := congrArg List.length h
    simp at this

/-- A record has at most one more field than its joined length. -/
theorem joinFields_length (comma : Char) :
    ∀ F : List (List Char), F.length ≤ (joinFields comma F).length + 1 := by
  intro F
  induction F with
  | nil => simp
  | cons f rest ih =>
    match rest with
    | [] => simp
    | g :: rest2 =>
      show (f :: g :: rest2).length ≤
        (f ++ comma :: joinFields comma (g :: rest2)).length + 1
      simp only [List.length_cons, List.length_append] at ih ⊢
      omega

/-- Folding the index map over entries whose name never matches leaves
the accumulator unchanged. -/
theorem colIdxFold_skip (name : String) :
    ∀ (l : List String) (n : Nat) (acc : Option Nat), name ∉ l →
      (List.enumFrom n l).foldl
        (fun a p => if p.2 = name then some p.1 else a) acc = acc := by
  intro l
  induction l with
  | nil => intro n acc _; rfl
  | cons x xs ih =>
    intro n acc hnm
    show (List.enumFrom (n + 1) xs).foldl
      (fun a p => if p.2 = name then some p.1 else a)
      (if x = name then some n else acc) = acc
    rw [if_neg (fun h : x = name => hnm (by rw [← h]; exact List.mem_cons_self x xs))]
    exact ih (n + 1) acc (fun h => hnm (List.mem_cons_of_mem x h))

/-- The writer's row loop: its content is the concatenation of one
record line per row, and its count adds the number of rows. -/
theorem writeRowsAux_parts (comma : Char) (cols : List Column) (rp : Nat) :
    ∀ (rows : List RowMap) (total lastRep : Nat),
      (writeRowsAux comma cols rp rows total lastRep).1.data =
        ((rows.map (fun row =>
          (writeRecordLine comma (cols.map (writeFieldText row))).data)).flatten) ∧
      (writeRowsAux comma cols rp rows total lastRep).2.1 = total + rows.length := by
  intro rows
  induction rows with
  | nil =>
    intro t lr
    exact ⟨rfl, rfl⟩
  | cons row rest ih =>
    intro t lr
    have h1 : (writeRowsAux comma cols rp (row :: rest) t lr).1 =
        writeRecordLine comma (cols.map (writeFieldText row)) ++
          (writeRowsAux comma cols rp rest (t + 1)
            (if t + 1 - lr ≥ rp then t + 1 else lr)).1 := rfl
    have h2 : (writeRowsAux comma cols rp (row :: rest) t lr).2.1 =
        (writeRowsAux comma cols rp rest (t + 1)
          (if t + 1 - lr ≥ rp then t + 1 else lr)).2.1 := rfl
    constructor
    · rw [h1, String.data_append, (ih (t + 1) _).1]
      simp
    · rw [h2, (ih (t + 1) _).2]
      simp only [List.length_cons]
      omega

/-- `takeWhile`/`dropWhile` on a list satisfying the predicate followed
by a character failing it. -/
theorem takeWhile_until_p (p : Char → Bool) (f t : List Char) (stop : Char)
    (hf : ∀ ch ∈ f, p ch = true) (hstop : p stop = false) :
    (f ++ stop :: t).takeWhile p = f ∧ (f ++ stop :: t).dropWhile p = stop :: t := by
  induction f with
  | nil =>
    simp only [List.nil_append, List.takeWhile_cons, List.dropWhile_cons, hstop]
    exact ⟨rfl, rfl⟩
  | cons a f ih =>
    have ha : p a = true := hf a (List.mem_cons_self a f)
    have hrec := ih (fun ch hch => hf ch (List.mem_cons_of_mem a hch))
    constructor
    · show List.takeWhile p (a :: (f ++ stop :: t)) = a :: f
      rw [List.takeWhile_cons, if_pos ha, hrec.1]
    · show List.dropWhile p (a :: (f ++ stop :: t)) = stop :: t
      rw [List.dropWhile_cons, if_pos ha, hrec.2]

/-- `readLine`'s CRLF normalization does nothing to content without a
`\r\n` pair. -/
theorem normalizeCRLF_id : ∀ l : List Char, hasCRLF l = false → normalizeCRLF l = l := by
  intro l
  induction l with
  | nil => intro _; rfl
  | cons c rest ih =>
    intro h
    unfold hasCRLF at h
    rw [Bool.or_eq_false_iff] at h
    unfold normalizeCRLF
    rw [if_neg ?_, ih h.2]
    intro hc
    have := h.1
    rw [hc.1] at this
    rw [hc.2] at this
    simp at this

/-- A list without `\n` has no `\r\n` pair. -/
theorem hasCRLF_no_nl (l : List Char) (h : '\n' ∉ l) : hasCRLF l = false := by
  induction l with
  | nil => rfl
  | cons c rest ih =>
    unfold hasCRLF
    rw [Bool.or_eq_false_iff]
    refine ⟨?_, ih (fun hm => h (List.mem_cons_of_mem c hm))⟩
    match rest with
    | [] => simp
    | d :: rest2 =>
      have hd : d ≠ '\n' := by
        intro hdn
        exact h (List.mem_cons_of_mem c (hdn ▸ List.mem_cons_self d rest2))
      simp [hd]

/-- `\r\n` pairs in a concatenation come from a side or the seam. -/
theorem hasCRLF_append_false (a b : List Char) (ha : hasCRLF a = false)
    (hb : hasCRLF b = false)
    (hseam : ∀ c, a.getLast? = some c → c = '\r' → b.head? ≠ some '\n') :
    hasCRLF (a ++ b) = false := by
  induction a with
  | nil => exact hb
  | cons x a2 ih =>
    unfold hasCRLF at ha
    rw [Bool.or_eq_false_iff] at ha
    show hasCRLF (x :: (a2 ++ b)) = false
    unfold hasCRLF
    rw [Bool.or_eq_false_iff]
    constructor
    · match a2 with
      | [] =>
        simp only [List.nil_append]
        by_cases hx : x = '\r'
        · have := hseam x (by simp) hx
          simp [this]
        · simp [hx]
      | y :: a3 =>
        show (decide (x = '\r') && decide ((y :: (a3 ++ b)).head? = some '\n')) = false
        by_cases hx : x = '\r'
        · by_cases hy : y = '\n'
          · exfalso
            have := ha.1
            rw [hx, hy] at this
            simp at this
          · simp [hy]
        · simp [hx]
    · apply ih ha.2
      intro c hc hcr
      match a2, hc with
      | y :: a3, hc =>
        exact hseam c
          (show (x :: y :: a3).getLast? = some c from by
            rw [List.getLast?_cons_cons]; exact hc) hcr
      | [], hc => cases hc

/-- Unfolding `escapeQuotes` over a cons. -/
theorem escapeQuotes_cons (c : Char) (rest : List Char) :
    escapeQuotes (c :: rest) =
      (if c = '"' then ['"', '"'] else [c]) ++ escapeQuotes rest := by
  simp [escapeQuotes]

/-- Escaping preserves the head character (`"` expands to `""`). -/
theorem escapeQuotes_head (g : List Char) : (escapeQuotes g).head? = g.head? := by
  match g with
  | [] => rfl
  | c :: rest =>
    rw [escapeQuotes_cons]
    by_cases hc : c = '"'
    · rw [if_pos hc, hc]
      rfl
    · rw [if_neg hc]
      rfl

/-- Escaping a non-empty content is non-empty. -/
theorem escapeQuotes_ne_nil (g : List Char) (h : g ≠ []) : escapeQuotes g ≠ [] := by
  match g with
  | [] => exact absurd rfl h
  | c :: rest =>
    rw [escapeQuotes_cons]
    by_cases hc : c = '"' <;> simp [hc]

/-- Escaping preserves the last character. -/
theorem escapeQuotes_getLast (g : List Char) :
    (escapeQuotes g).getLast? = g.getLast? := by
  induction g with
  | nil => rfl
  | cons c rest ih =>
    rw [escapeQuotes_cons]
    match rest with
    | [] =>
      by_cases hc : c = '"'
      · rw [if_pos hc, hc]
        rfl
      · rw [if_neg hc]
        rfl
    | d :: rest2 =>
      rw [List.getLast?_append_of_ne_nil _ (escapeQuotes_ne_nil _ (by simp)), ih]
      rw [List.getLast?_cons_cons]

/-- Escaping introduces no `\r\n` pair. -/
theorem hasCRLF_escape (g : List Char) (hg : hasCRLF g = false) :
    hasCRLF (escapeQuotes g) = false := by
  induction g with
  | nil => rfl
  | cons c rest ih =>
    unfold hasCRLF at hg
    rw [Bool.or_eq_false_iff] at hg
    rw [escapeQuotes_cons]
    by_cases hc : c = '"'
    · rw [if_pos hc]
      show hasCRLF ('"' :: '"' :: escapeQuotes rest) = false
      unfold hasCRLF
      unfold hasCRLF
      simp [ih hg.2]
    · rw [if_neg hc]
      show hasCRLF (c :: escapeQuotes rest) = false
      unfold hasCRLF
      rw [Bool.or_eq_false_iff]
      refine ⟨?_, ih hg.2⟩
      rw [escapeQuotes_head]
      exact hg.1

/-- The quoted-field parser inverts quoting: after the opening quote,
escaped content followed by a closing quote and a comma (more fields) or
a newline (end of record) parses back to the content. -/
theorem parseQuotedField_spec (comma : Char) (hcq : comma ≠ '"')
    (hcn : comma ≠ '\n') :
    ∀ (g : List Char) (c : Char) (tail : List Char), c = comma ∨ c = '\n' →
      parseQuotedField comma (escapeQuotes g ++ '"' :: c :: tail) =
        (g, c == comma, tail) := by
  intro g
  induction g with
  | nil =>
    intro c tail hc
    have hc2 : ¬(c = '"') := by
      rcases hc with h | h
      · rw [h]
        exact hcq
      · rw [h]
        decide
    show parseQuotedField comma ('"' :: c :: tail) = ([], c == comma, tail)
    unfold parseQuotedField
    show (if c = '"' then
        ('"' :: (parseQuotedField comma tail).1,
          (parseQuotedField comma tail).2.1, (parseQuotedField comma tail).2.2)
      else if c = comma then ([], true, tail)
      else if c = '\n' then ([], false, tail)
      else
        ('"' :: (parseQuotedField comma (c :: tail)).1,
          (parseQuotedField comma (c :: tail)).2.1,
          (parseQuotedField comma (c :: tail)).2.2)) = ([], c == comma, tail)
    rw [if_neg hc2]
    rcases hc with h | h
    · rw [if_pos h, h, beq_self_eq_true]
    · rw [if_neg (show ¬(c = comma) from by rw [h]; exact fun hh => hcn hh.symm)]
      rw [if_pos h, h]
      rw [beq_eq_false_iff_ne.mpr (show ('\n' : Char) ≠ comma from fun hh => hcn hh.symm)]
  | cons a g2 ih =>
    intro c tail hc
    rw [escapeQuotes_cons]
    by_cases ha : a = '"'
    · rw [if_pos ha]
      show parseQuotedField comma
          ('"' :: '"' :: (escapeQuotes g2 ++ '"' :: c :: tail)) =
        (a :: g2, c == comma, tail)
      unfold parseQuotedField
      show ('"' :: (parseQuotedField comma (escapeQuotes g2 ++ '"' :: c :: tail)).1,
          (parseQuotedField comma (escapeQuotes g2 ++ '"' :: c :: tail)).2.1,
          (parseQuotedField comma (escapeQuotes g2 ++ '"' :: c :: tail)).2.2) =
        (a :: g2, c == comma, tail)
      rw [ih c tail hc, ha]
    · rw [if_neg ha]
      show parseQuotedField comma
          (a :: (escapeQuotes g2 ++ '"' :: c :: tail)) =
        (a :: g2, c == comma, tail)
      unfold parseQuotedField
      rw [if_neg ha, ih c tail hc]

/-- Parsing one encoded field followed by a comma or the line terminator
recovers the field's exact text. -/
theorem parseOneField_encoded (comma : Char) (hcq : comma ≠ '"')
    (hcsp : goIsSpace comma = false) (f : String) (c : Char) (tail : List Char)
    (hc : c = comma ∨ c = '\n') :
    parseOneField comma ((encodeField comma f).data ++ c :: tail) =
      (f.data, c == comma, tail) := by
  have hcn : comma ≠ '\n' := by
    intro h
    rw [h] at hcsp
    simp [goIsSpace] at hcsp
  by_cases hq : fieldNeedsQuotes comma f = true
  · have hdata : (encodeField comma f).data =
        '"' :: (escapeQuotes f.data ++ ['"']) := by
      unfold encodeField
      rw [if_pos hq]
      unfold quoteField
      rw [String.data_append, String.data_append]
      rfl
    rw [hdata]
    rw [show ('"' :: (escapeQuotes f.data ++ ['"'])) ++ c :: tail =
        '"' :: (escapeQuotes f.data ++ '"' :: c :: tail) from by simp]
    unfold parseOneField
    rw [dropWhile_head_false _ _ (by
      intro ch hch
      have : ch = '"' := by
        injection hch with h2
        exact h2.symm
      rw [this]
      decide)]
    show parseQuotedField comma (escapeQuotes f.data ++ '"' :: c :: tail) =
      (f.data, c == comma, tail)
    exact parseQuotedField_spec comma hcq hcn f.data c tail hc
  · have hqf : fieldNeedsQuotes comma f = false := by
      simpa using hq
    have henc : encodeField comma f = f := encodeField_id comma f hqf
    have hfacts := noQuoteFacts comma f hqf
    rw [henc]
    unfold parseOneField
    rw [dropWhile_head_false _ _ (by
      intro ch hch
      match hfd : f.data, hch with
      | [], hch =>
        have hch2 : (c :: tail).head? = some ch := hch
        have : ch = c := by
          injection hch2 with h2
          exact h2.symm
        rw [this]
        rcases hc with h | h
        · rw [h, hcsp]
          rfl
        · rw [h]
          simp
      | d :: ds, hch =>
        have hch2 : (d :: (ds ++ c :: tail)).head? = some ch := hch
        have : ch = d := by
          injection hch2 with h2
          exact h2.symm
        rw [this]
        have := hfacts.2 d (by rw [hfd]; rfl)
        rw [this]
        rfl)]
    rw [if_neg (by
      intro hh
      match hfd : f.data, hh with
      | [], hh =>
        have hh2 : (c :: tail).head? = some '"' := hh
        have : c = '"' := by
          injection hh2
        rcases hc with h | h
        · rw [h] at this
          exact hcq this
        · rw [h] at this
          cases this
      | d :: ds, hh =>
        have hh2 : (d :: (ds ++ c :: tail)).head? = some '"' := hh
        have hd : d = '"' := by
          injection hh2
        have := hfacts.1 d (by rw [hfd]; exact List.mem_cons_self d ds)
        exact this (Or.inr (Or.inl hd)))]
    have ht := takeWhile_until_p (fun ch => ch ≠ comma && ch ≠ '\n') f.data tail c
      (by
        intro ch hch
        have := hfacts.1 ch hch
        have h1 : ch ≠ comma := fun hh => this (Or.inl hh)
        have h2 : ch ≠ '\n' := fun hh => this (Or.inr (Or.inr (Or.inr hh)))
        simp [h1, h2])
      (by
        rcases hc with h | h
        · rw [h]
          simp
        · rw [h]
          simp)
    rw [ht.2, ht.1]
    show (if c = comma then (f.data, true, tail) else (f.data, false, tail)) =
      (f.data, c == comma, tail)
    rcases hc with h | h
    · rw [if_pos h, h, beq_self_eq_true]
    · rw [if_neg (show ¬(c = comma) from by rw [h]; exact fun hh => hcn hh.symm), h]
      rw [beq_eq_false_iff_ne.mpr (show ('\n' : Char) ≠ comma from fun hh => hcn hh.symm)]

/-- Parsing one written record line recovers the fields' exact texts and
leaves the input after the line terminator. -/
theorem readRecordAux_encoded (comma : Char) (hcq : comma ≠ '"')
    (hcsp : goIsSpace comma = false) :
    ∀ (F : List String) (fuel : Nat) (rest : List Char), F ≠ [] → F.length ≤ fuel →
      readRecordAux comma fuel
        (joinFields comma (F.map (fun f => (encodeField comma f).data)) ++
          '\n' :: rest) =
        (F.map String.data, rest) := by
  have hnc : ('\n' == comma) = false := by
    apply beq_eq_false_iff_ne.mpr
    intro h
    rw [← h] at hcsp
    simp [goIsSpace] at hcsp
  intro F
  induction F with
  | nil => intro fuel rest h; exact absurd rfl h
  | cons f F2 ih =>
    intro fuel rest _ hfuel
    match fuel, hfuel with
    | fuel + 1, hfuel =>
      match F2 with
      | [] =>
        show readRecordAux comma (fuel + 1)
          ((encodeField comma f).data ++ '\n' :: rest) = ([f.data], rest)
        unfold readRecordAux
        rw [parseOneField_encoded comma hcq hcsp f '\n' rest (Or.inr rfl)]
        rw [hnc]
        rw [if_neg (by simp)]
      | g :: F3 =>
        show readRecordAux comma (fuel + 1)
          (((encodeField comma f).data ++ comma ::
              joinFields comma ((g :: F3).map (fun f => (encodeField comma f).data))) ++
            '\n' :: rest) = ((f :: g :: F3).map String.data, rest)
        rw [show ((encodeField comma f).data ++ comma ::
              joinFields comma ((g :: F3).map (fun f => (encodeField comma f).data))) ++
            '\n' :: rest =
          (encodeField comma f).data ++ comma ::
            (joinFields comma ((g :: F3).map (fun f => (encodeField comma f).data)) ++
              '\n' :: rest) from by simp]
        unfold readRecordAux
        rw [parseOneField_encoded comma hcq hcsp f comma _ (Or.inl rfl)]
        rw [beq_self_eq_true]
        rw [if_pos (by simp)]
        rw [ih fuel rest (by simp) (by simp only [List.length_cons] at hfuel ⊢; omega)]
        rfl

/-- An encoded non-empty field is a non-empty character list. -/
theorem encData_ne_nil (comma : Char) (f : String) (h : f ≠ "") :
    (encodeField comma f).data ≠ [] := by
  by_cases hq : fieldNeedsQuotes comma f = true
  · unfold encodeField
    rw [if_pos hq]
    unfold quoteField
    rw [String.data_append, String.data_append]
    simp
  · rw [encodeField_id comma f (by simpa using hq)]
    intro hd
    apply h
    calc f = (⟨f.data⟩ : String) := rfl
    _ = (⟨[]⟩ : String) := by rw [hd]

/-- An encoded field never starts with the line terminator. -/
theorem encData_head_not_nl (comma : Char) (f : String) :
    ∀ ch, ((encodeField comma f).data).head? = some ch → ch ≠ '\n' := by
  intro ch hch
  by_cases hq : fieldNeedsQuotes comma f = true
  · unfold encodeField at hch
    rw [if_pos hq] at hch
    unfold quoteField at hch
    rw [String.data_append, String.data_append] at hch
    have hch2 : ('"' :: (escapeQuotes f.data ++ ['"'])).head? = some ch := hch
    have : ch = '"' := by
      injection hch2 with h2
      exact h2.symm
    rw [this]
    decide
  · rw [encodeField_id comma f (by simpa using hq)] at hch
    have hfacts := noQuoteFacts comma f (by simpa using hq)
    match hfd : f.data, hch with
    | d :: ds, hch =>
      have : ch = d := by
        have hch2 : (d :: ds).head? = some ch := hch
        injection hch2 with h2
        exact h2.symm
      rw [this]
      intro hd
      exact (hfacts.1 d (by rw [hfd]; exact List.mem_cons_self d ds))
        (Or.inr (Or.inr (Or.inr hd)))

/-- A written record line never starts with the line terminator. -/
theorem line_head_not_nl (comma : Char) (hcsp : goIsSpace comma = false)
    (F : List String) :
    ∀ ch, (joinFields comma
        (F.map (fun f => (encodeField comma f).data))).head? = some ch →
      ch ≠ '\n' := by
  match F with
  | [] => intro ch hch; cases hch
  | [f] =>
    intro ch hch
    exact encData_head_not_nl comma f ch hch
  | f :: g :: F3 =>
    intro ch hch
    have hch2 : ((encodeField comma f).data ++ comma ::
        joinFields comma ((g :: F3).map (fun f => (encodeField comma f).data))).head? =
          some ch := hch
    match hx : (encodeField comma f).data, hch2 with
    | [], hch2 =>
      have hch3 : (comma :: joinFields comma
          ((g :: F3).map (fun f => (encodeField comma f).data))).head? = some ch := hch2
      have : ch = comma := by
        injection hch3 with h2
        exact h2.symm
      rw [this]
      intro h
      rw [h] at hcsp
      simp [goIsSpace] at hcsp
    | d :: ds, hch2 =>
      have hch3 : (d :: (ds ++ comma :: joinFields comma
          ((g :: F3).map (fun f => (encodeField comma f).data)))).head? = some ch := hch2
      have : ch = d := by
        injection hch3 with h2
        exact h2.symm
      rw [this]
      exact encData_head_not_nl comma f d (by rw [hx]; rfl)

/-- An encoded field contains no `\r\n` pair and never ends in `\r`,
provided the raw field contains no `\r\n` pair. -/
theorem encData_noCRLF (comma : Char) (f : String)
    (hf : hasCRLF f.data = false) :
    hasCRLF (encodeField comma f).data = false ∧
    (∀ ch, ((encodeField comma f).data).getLast? = some ch → ch ≠ '\r') := by
  by_cases hq : fieldNeedsQuotes comma f = true
  · have hdata : (encodeField comma f).data =
        '"' :: (escapeQuotes f.data ++ ['"']) := by
      unfold encodeField
      rw [if_pos hq]
      unfold quoteField
      rw [String.data_append, String.data_append]
      rfl
    rw [hdata]
    constructor
    · show hasCRLF ('"' :: (escapeQuotes f.data ++ ['"'])) = false
      unfold hasCRLF
      rw [Bool.or_eq_false_iff]
      constructor
      · simp
      · apply hasCRLF_append_false _ _ (hasCRLF_escape f.data hf) (by rfl)
        intro c _ _
        simp
    · intro ch hch
      have hch2 : (('"' :: escapeQuotes f.data) ++ ['"'] : List Char).getLast? =
          some ch := hch
      rw [List.getLast?_concat] at hch2
      have : ch = '"' := by
        injection hch2 with h2
        exact h2.symm
      rw [this]
      decide
  · have hqf : fieldNeedsQuotes comma f = false := by simpa using hq
    rw [encodeField_id comma f hqf]
    have hfacts := noQuoteFacts comma f hqf
    constructor
    · apply hasCRLF_no_nl
      intro hm
      exact (hfacts.1 '\n' hm) (Or.inr (Or.inr (Or.inr rfl)))
    · intro ch hch
      intro hcr
      exact (hfacts.1 ch (List.mem_of_mem_getLast? hch))
        (Or.inr (Or.inr (Or.inl hcr)))

/-- A written record line contains no `\r\n` pair and never ends in
`\r`, provided its fields contain no `\r\n` pair. -/
theorem line_noCRLF (comma : Char) (hcsp : goIsSpace comma = false)
    (F : List String) (hfF : ∀ f ∈ F, hasCRLF f.data = false) :
    hasCRLF (joinFields comma (F.map (fun f => (encodeField comma f).data))) = false ∧
    (∀ ch, (joinFields comma
        (F.map (fun f => (encodeField comma f).data))).getLast? = some ch →
      ch ≠ '\r') := by
  have hcr : comma ≠ '\r' := by
    intro h
    rw [h] at hcsp
    simp [goIsSpace] at hcsp
  induction F with
  | nil => exact ⟨rfl, by intro ch hch; cases hch⟩
  | cons f F2 ih =>
    have hfe := encData_noCRLF comma f (hfF f (List.mem_cons_self f F2))
    match F2 with
    | [] => exact hfe
    | g :: F3 =>
      have ihr := ih (fun u hu => hfF u (List.mem_cons_of_mem f hu))
      show hasCRLF ((encodeField comma f).data ++ comma :: joinFields comma
          ((g :: F3).map (fun u => (encodeField comma u).data))) = false ∧ _
      constructor
      · apply hasCRLF_append_false _ _ hfe.1
        · unfold hasCRLF
          rw [Bool.or_eq_false_iff]
          refine ⟨by simp [hcr], ihr.1⟩
        · intro c hc hcrr
          exact absurd hcrr (hfe.2 c hc)
      · intro ch hch
        have hch0 : ((encodeField comma f).data ++ comma :: joinFields comma
            ((g :: F3).map (fun u => (encodeField comma u).data))).getLast? =
              some ch := hch
        rw [List.getLast?_append_of_ne_nil _ (by simp)] at hch0
        clear hch
        match hJ : joinFields comma ((g :: F3).map (fun u => (encodeField comma u).data)), hch0 with
        | [], hch =>
          have hch2 : ([comma] : List Char).getLast? = some ch := hch
          simp at hch2
          rw [← hch2]
          exact hcr
        | d :: ds, hch =>
          have hch2 : (comma :: d :: ds).getLast? = some ch := hch
          rw [List.getLast?_cons_cons] at hch2
          have := ihr.2 ch (by rw [hJ]; exact hch2)
          exact this

/-- Reading all written record lines recovers the written records,
provided no record is a single empty field. -/
theorem readAll_encoded (comma : Char) (hcq : comma ≠ '"')
    (hcsp : goIsSpace comma = false) :
    ∀ (Fs : List (List String)) (fuel : Nat),
      (∀ F ∈ Fs, F ≠ [] ∧ ∀ f, F = [f] → f ≠ "") →
      ((Fs.map (fun F =>
          joinFields comma (F.map (fun f => (encodeField comma f).data)) ++
            ['\n'])).flatten).length < fuel →
      readAllRecordsAux comma fuel
        ((Fs.map (fun F =>
          joinFields comma (F.map (fun f => (encodeField comma f).data)) ++
            ['\n'])).flatten) = Fs := by
  intro Fs
  induction Fs with
  | nil =>
    intro fuel _ _
    match fuel with
    | 0 => rfl
    | fu + 1 =>
      show readAllRecordsAux comma (fu + 1) [] = []
      unfold readAllRecordsAux
      rw [if_pos rfl]
  | cons F Fs2 ih =>
    intro fuel hall hlen
    have hF := hall F (List.mem_cons_self F Fs2)
    simp only [List.map_cons, List.flatten_cons, List.append_assoc,
      List.singleton_append] at hlen ⊢
    have hline_ne : joinFields comma
        (F.map (fun f => (encodeField comma f).data)) ≠ [] := by
      apply joinFields_ne_nil
      · intro hm
        exact hF.1 (List.map_eq_nil_iff.mp hm)
      · intro x hx
        match F, hF, hx with
        | [g], hF, hx =>
          have hxe : (encodeField comma g).data = x := by
            have hx2 : ([(encodeField comma g).data] : List (List Char)) = [x] := hx
            injection hx2 with h2
          rw [← hxe]
          exact encData_ne_nil comma g (hF.2 g rfl)
        | g :: h :: t, hF, hx =>
          have := congrArg List.length hx
          simp at this
    obtain ⟨c, line2, hl⟩ : ∃ c line2, joinFields comma
        (F.map (fun f => (encodeField comma f).data)) = c :: line2 := by
      match hX : joinFields comma (F.map (fun f => (encodeField comma f).data)) with
      | [] => exact absurd hX hline_ne
      | c :: l2 => exact ⟨c, l2, rfl⟩
    have hc_ne : c ≠ '\n' :=
      line_head_not_nl comma hcsp F c (by rw [hl]; rfl)
    have hhead : (joinFields comma (F.map (fun f => (encodeField comma f).data)) ++
        '\n' :: (Fs2.map (fun G =>
          joinFields comma (G.map (fun f => (encodeField comma f).data)) ++
            ['\n'])).flatten).head? = some c := by
      rw [hl]; rfl
    match fuel, hlen with
    | fu + 1, hlen =>
      have hfuel2 : F.length ≤ (joinFields comma
          (F.map (fun f => (encodeField comma f).data)) ++
            '\n' :: (Fs2.map (fun G =>
              joinFields comma (G.map (fun f => (encodeField comma f).data)) ++
                ['\n'])).flatten).length + 1 := by
        have hj := joinFields_length comma (F.map (fun f => (encodeField comma f).data))
        rw [List.length_map] at hj
        rw [List.length_append, List.length_cons]
        omega
      unfold readAllRecordsAux
      rw [if_neg (by simp)]
      rw [if_neg (by
        rw [hhead]
        intro h
        injection h with h2
        exact hc_ne h2)]
      rw [readRecordAux_encoded comma hcq hcsp F _ _ hF.1 hfuel2]
      rw [List.map_map]
      rw [show ((fun f => (⟨f⟩ : String)) ∘ String.data) = id from rfl, List.map_id]
      refine congrArg (fun t => F :: t) ?_
      apply ih fu (fun G hG => hall G (List.mem_cons_of_mem F hG))
      rw [List.length_append, List.length_cons] at hlen
      omega

/-- The header-index fold finds some occurrence of a present name. -/
theorem colIdxFold_mem (name : String) :
    ∀ (l : List String) (n : Nat) (acc : Option Nat), name ∈ l →
      ∃ j, ∃ h : j < l.length, l.get ⟨j, h⟩ = name ∧
        (List.enumFrom n l).foldl
          (fun a p => if p.2 = name then some p.1 else a) acc = some (n + j) := by
  intro l
  induction l with
  | nil => intro n acc h; cases h
  | cons x xs ih =>
    intro n acc hmem
    by_cases hxs : name ∈ xs
    · obtain ⟨j, hj, hval, heq⟩ := ih (n + 1) (if x = name then some n else acc) hxs
      refine ⟨j + 1, by simp [Nat.succ_lt_succ hj], hval, ?_⟩
      show (List.enumFrom (n + 1) xs).foldl
        (fun a p => if p.2 = name then some p.1 else a)
        (if x = name then some n else acc) = some (n + (j + 1))
      rw [heq]
      exact congrArg some (by omega)
    · have hx : x = name := by
        rcases List.mem_cons.mp hmem with h | h
        · exact h.symm
        · exact absurd h hxs
      refine ⟨0, by simp, hx, ?_⟩
      show (List.enumFrom (n + 1) xs).foldl
        (fun a p => if p.2 = name then some p.1 else a)
        (if x = name then some n else acc) = some (n + 0)
      rw [if_pos hx, colIdxFold_skip name xs (n + 1) (some n) hxs]
      exact congrArg some (Nat.add_zero n).symm

/-- `colNameToIndex` succeeds on a present name and returns an index
holding that name. -/
theorem colNameToIndex_mem (header : List String) (name : String)
    (hmem : name ∈ header) :
    ∃ j, ∃ h : j < header.length, header.get ⟨j, h⟩ = name ∧
      colNameToIndex header name = some j := by
  obtain ⟨j, hj, hval, heq⟩ := colIdxFold_mem name header 0 none hmem
  refine ⟨j, hj, hval, ?_⟩
  show (List.enumFrom 0 header).foldl
    (fun a p => if p.2 = name then some p.1 else a) none = some j
  rw [heq]
  exact congrArg some (Nat.zero_add j)

/-- The written field text depends on the column only through its name. -/
theorem writeFieldText_name_congr (row : RowMap) (c1 c2 : Column)
    (h : c1.name = c2.name) : writeFieldText row c1 = writeFieldText row c2 := by
  unfold writeFieldText
  rw [h]

/-- The concatenation of written record lines contains no `\r\n` pair,
provided every field contains no `\r\n` pair. -/
theorem blocks_noCRLF (comma : Char) (hcsp : goIsSpace comma = false) :
    ∀ (Ls : List (List String)),
      (∀ F ∈ Ls, ∀ f ∈ F, hasCRLF f.data = false) →
      hasCRLF ((Ls.map (fun F =>
        joinFields comma (F.map (fun f => (encodeField comma f).data)) ++
          ['\n'])).flatten) = false := by
  intro Ls
  induction Ls with
  | nil => intro _; rfl
  | cons F Ls2 ih =>
    intro hall
    simp only [List.map_cons, List.flatten_cons]
    have hline := line_noCRLF comma hcsp F (hall F (List.mem_cons_self F Ls2))
    apply hasCRLF_append_false
    · apply hasCRLF_append_false _ _ hline.1 (by decide)
      intro c hc hcr
      exact absurd hcr (hline.2 c hc)
    · exact ih (fun G hG => hall G (List.mem_cons_of_mem F hG))
    · intro c hc hcr
      rw [List.getLast?_concat] at hc
      injection hc with h2
      rw [← h2] at hcr
      exact absurd hcr (by decide)

/-- A map producing a singleton comes from a singleton. -/
theorem map_eq_singleton_col (g : Column → String) (l : List Column) (x : String)
    (h : l.map g = [x]) : ∃ a, l = [a] ∧ x = g a := by
  match l, h with
  | [], h => exact absurd h (by simp)
  | [a], h =>
    refine ⟨a, rfl, ?_⟩
    have h2 : ([g a] : List String) = [x] := h
    injection h2 with h3
    exact h3.symm
  | a :: b :: t, h =>
    have := congrArg List.length h
    simp at this

/-- `ReadData` on a content whose record sequence is known. -/
theorem readData_parsed (content delimiter : String) (columns : List Column)
    (header : List String) (records : List (List String))
    (h : parseRecords (effectiveDelim delimiter) content = header :: records) :
    readData content delimiter columns =
      .ok ((records.filter (fun r => r.length = header.length)).map (fun record =>
        columns.map (fun col =>
          match colNameToIndex header col.name with
          | none => GoValue.null
          | some i =>
            if i < record.length then convertValue (record.getD i "") col.type
            else GoValue.null))) := by
  simp only [readData]
  rw [h]

/-- Concrete columns for the round-trip witness: the name `id` is
duplicated. -/
def roundtripCols : List Column :=
  [⟨"id", "Int64"⟩, ⟨"id", "Int64"⟩, ⟨"note", "String"⟩]

/-- Concrete rows for the round-trip witness: the `note` fields need
csv quoting (delimiter and quote content, leading white space). -/
def roundtripRows : List RowMap :=
  [[("id", GoValue.int 1), ("note", GoValue.str "a,\"b\"")],
   [("id", GoValue.int 2), ("note", GoValue.str " leading")]]

set_option maxHeartbeats 1000000 in
/-- C7 (corrected): when the effective delimiter is not a quote or white
space (so in particular not CR or LF), no column name or written field
text contains the two-character sequence CR-LF, and no record is written
as a single empty field, `WriteData` followed by `ReadData` with the
same column list and delimiter returns the written row count and exactly
one delivered row per written row, each cell being the documented lossy
conversion of the exact textual field written for that column — fields
that need csv quoting and duplicated column names round trip intact. -/
theorem writeData_readData_roundtrip (delimiter : String) (columns : List Column)
    (reportSize : Nat) (rows : List RowMap)
    (hcols : columns ≠ [])
    (hcq : effectiveDelim delimiter ≠ '"')
    (hcsp : goIsSpace (effectiveDelim delimiter) = false)
    (hnames : ∀ col ∈ columns, hasCRLF col.name.data = false)
    (hfields : ∀ row ∈ rows, ∀ col ∈ columns,
      hasCRLF (writeFieldText row col).data = false)
    (hheadnb : ∀ col, columns = [col] → col.name ≠ "")
    (hrownb : ∀ row ∈ rows, ∀ col, columns = [col] → writeFieldText row col ≠ "") :
    (writeData delimiter columns reportSize rows).2.1 = rows.length ∧
    readData (writeData delimiter columns reportSize rows).1 delimiter columns =
      .ok (rows.map (fun row => columns.map (fun col =>
        convertValue (writeFieldText row col) col.type))) := by
  have hcontentData :
      (writeData delimiter columns reportSize rows).1.data =
        (((columns.map (fun c => c.name)) ::
            rows.map (fun row => columns.map (writeFieldText row))).map
          (fun F => joinFields (effectiveDelim delimiter)
            (F.map (fun f => (encodeField (effectiveDelim delimiter) f).data)) ++
              ['\n'])).flatten := by
    have h2 : ((rows.map (fun row => columns.map (writeFieldText row))).map
        (fun F => joinFields (effectiveDelim delimiter)
          (F.map (fun f => (encodeField (effectiveDelim delimiter) f).data)) ++
            ['\n'])) =
        rows.map (fun row => (writeRecordLine (effectiveDelim delimiter)
          (columns.map (writeFieldText row))).data) := by
      rw [List.map_map]
      rfl
    show (writeRecordLine (effectiveDelim delimiter) (columns.map (fun c => c.name)) ++
        (writeRowsAux (effectiveDelim delimiter) columns reportSize rows 0 0).1).data = _
    rw [String.data_append,
      (writeRowsAux_parts (effectiveDelim delimiter) columns reportSize rows 0 0).1,
      List.map_cons, List.flatten_cons, h2]
    rfl
  have hnoCRLF : hasCRLF (writeData delimiter columns reportSize rows).1.data = false := by
    rw [hcontentData]
    apply blocks_noCRLF _ hcsp
    intro F hF f hf
    rcases List.mem_cons.mp hF with h | h
    · subst h
      obtain ⟨col, hcol, rfl⟩ := List.mem_map.mp hf
      exact hnames col hcol
    · obtain ⟨row, hrow, rfl⟩ := List.mem_map.mp h
      obtain ⟨col, hcol, rfl⟩ := List.mem_map.mp hf
      exact hfields row hrow col hcol
  have hparse : parseRecords (effectiveDelim delimiter)
      (writeData delimiter columns reportSize rows).1 =
      (columns.map (fun c => c.name)) ::
        rows.map (fun row => columns.map (writeFieldText row)) := by
    show readAllRecordsAux (effectiveDelim delimiter)
      ((writeData delimiter columns reportSize rows).1.data.length + 1)
      (normalizeCRLF (writeData delimiter columns reportSize rows).1.data) = _
    rw [normalizeCRLF_id _ hnoCRLF, hcontentData]
    apply readAll_encoded _ hcq hcsp
    · intro F hF
      rcases List.mem_cons.mp hF with h | h
      · subst h
        refine ⟨?_, ?_⟩
        · intro hnil
          exact hcols (List.map_eq_nil_iff.mp hnil)
        · intro f hsing
          obtain ⟨col, hc1, hc2⟩ := map_eq_singleton_col _ columns f hsing
          rw [hc2]
          exact hheadnb col hc1
      · obtain ⟨row, hrow, rfl⟩ := List.mem_map.mp h
        refine ⟨?_, ?_⟩
        · intro hnil
          exact hcols (List.map_eq_nil_iff.mp hnil)
        · intro f hsing
          obtain ⟨col, hc1, hc2⟩ := map_eq_singleton_col _ columns f hsing
          rw [hc2]
          exact hrownb row hrow col hc1
    · exact Nat.lt_succ_self _
  have hfilter : ((rows.map (fun row => columns.map (writeFieldText row))).filter
      (fun r => r.length = (columns.map (fun c => c.name)).length)) =
      rows.map (fun row => columns.map (writeFieldText row)) := by
    apply List.filter_eq_self.mpr
    intro r hr
    obtain ⟨row, hrow, rfl⟩ := List.mem_map.mp hr
    simp
  refine ⟨?_, ?_⟩
  · show (writeRowsAux (effectiveDelim delimiter) columns reportSize rows 0 0).2.1 =
      rows.length
    rw [(writeRowsAux_parts (effectiveDelim delimiter) columns reportSize rows 0 0).2]
    exact Nat.zero_add _
  · rw [readData_parsed _ _ _ _ _ hparse, hfilter, List.map_map]
    refine congrArg Except.ok ?_
    apply List.map_congr_left
    intro row hrow
    show columns.map (fun col =>
        match colNameToIndex (columns.map (fun c => c.name)) col.name with
        | none => GoValue.null
        | some i =>
          if i < (columns.map (writeFieldText row)).length then
            convertValue ((columns.map (writeFieldText row)).getD i "") col.type
          else GoValue.null) =
      columns.map (fun col => convertValue (writeFieldText row col) col.type)
    apply List.map_congr_left
    intro col hcol
    have hmem : col.name ∈ columns.map (fun c => c.name) :=
      List.mem_map.mpr ⟨col, hcol, rfl⟩
    obtain ⟨j, hj, hval, heq⟩ := colNameToIndex_mem _ _ hmem
    rw [heq]
    have hjc : j < columns.length := by
      rw [List.length_map] at hj
      exact hj
    have hjlen : j < (columns.map (writeFieldText row)).length := by
      rw [List.length_map]
      exact hjc
    show (if j < (columns.map (writeFieldText row)).length then
        convertValue ((columns.map (writeFieldText row)).getD j "") col.type
      else GoValue.null) = convertValue (writeFieldText row col) col.type
    rw [if_pos hjlen, List.getD_eq_getElem _ _ hjlen, List.getElem_map]
    have hname : (columns.get ⟨j, hjc⟩).name = col.name := by
      have hv2 := hval
      simp only [List.get_eq_getElem, List.getElem_map] at hv2
      exact hv2
    exact congrArg (fun s => convertValue s col.type)
      (writeFieldText_name_congr row (columns.get ⟨j, hjc⟩) col hname)

/-- The corrected round trip at a concrete input with a duplicated
column name and fields that need csv quoting. -/
theorem writeData_readData_roundtrip_witness :
    (writeData "," roundtripCols 5000 roundtripRows).2.1 = roundtripRows.length ∧
    readData (writeData "," roundtripCols 5000 roundtripRows).1 "," roundtripCols =
      .ok (roundtripRows.map (fun row => roundtripCols.map (fun col =>
        convertValue (writeFieldText row col) col.type))) :=
  writeData_readData_roundtrip "," roundtripCols 5000 roundtripRows
    (by decide) (by decide) (by decide) (by decide) (by decide)
    (fun col h =>
      absurd (show (3 : Nat) = 1 from congrArg List.length h) (by decide))
    (fun row _ col h =>
      absurd (show (3 : Nat) = 1 from congrArg List.length h) (by decide))

end Ingestor
